import Mathlib

/-!
# Verification of the late-filings pipeline (`late-accounts.py`)

Shallow embedding of the Companies House late-filings script: the proleptic
Gregorian calendar arithmetic of Python's `datetime` module (used by
`find_days_late`), the `%Y-%m-%d` parse performed by `datetime.strptime`,
the profile-fetch retry loop (`get_company_profile`), the lateness
classifier (`get_late_plcs`), the checkpoint store
(`save_to_file` / `load_from_file`) together with the JSON text layer of
`json.dump(..., indent=4)` / `json.load`, the issuer cross-reference used
by `create_html`, and the `__main__` orchestration.
-/

namespace LateAccounts

/-! ## Calendar model (Python `datetime.date`)

`find_days_late` converts its argument with
`datetime.strptime(due_date, '%Y-%m-%d').date()` and subtracts it from
`datetime.today().date()`; the `.days` of that difference is the difference
of the two dates' proleptic Gregorian ordinals (`date.toordinal`).  The
definitions below mirror CPython's `datetime` module: `_days_before_year`,
`_days_before_month`, `_days_in_month` and `_ymd2ord`.
-/

structure Date where
  year : ℕ
  month : ℕ
  day : ℕ
  deriving DecidableEq, Repr

/-- CPython `datetime._is_leap`. -/
def isLeap (y : ℕ) : Bool :=
  (y % 4 == 0 && y % 100 != 0) || (y % 400 == 0)

/-- CPython `datetime._days_in_month` (month lengths; February depends on leap year). -/
def daysInMonth (y m : ℕ) : ℕ :=
  if m = 2 then (if isLeap y then 29 else 28)
  else if m = 4 ∨ m = 6 ∨ m = 9 ∨ m = 11 then 30
  else 31

/-- CPython `datetime._days_before_month` for months 1..12: cumulative days in
the months strictly before `m`, with the leap-day adjustment for `m > 2`. -/
def daysBeforeMonth (y m : ℕ) : ℕ :=
  (match m with
   | 1 => 0 | 2 => 31 | 3 => 59 | 4 => 90 | 5 => 120 | 6 => 151
   | 7 => 181 | 8 => 212 | 9 => 243 | 10 => 273 | 11 => 304 | _ => 334)
  + (if 2 < m ∧ isLeap y then 1 else 0)

/-- CPython `datetime._days_before_year`: days before January 1st of year `y`
(so `daysBeforeYear 1 = 0`).  CPython computes
`(y-1)*365 + (y-1)//4 - (y-1)//100 + (y-1)//400`; the subtraction is grouped
last here so that ℕ subtraction never truncates (the subtrahend is bounded by
the first division term), leaving the value unchanged. -/
def daysBeforeYear (y : ℕ) : ℕ :=
  (y - 1) * 365 + (y - 1) / 4 + (y - 1) / 400 - (y - 1) / 100

/-- CPython `date.toordinal` (`_ymd2ord`): day number in the proleptic
Gregorian calendar, with 0001-01-01 being day 1. -/
def toOrdinal (d : Date) : ℕ :=
  daysBeforeYear d.year + daysBeforeMonth d.year d.month + d.day

/-- Structural calendar validity: the month is 1..12 and the day fits the
month.  (Unlike `PyValid` below, no upper bound on the year.) -/
def Date.StructValid (d : Date) : Prop :=
  1 ≤ d.year ∧ 1 ≤ d.month ∧ d.month ≤ 12 ∧ 1 ≤ d.day ∧ d.day ≤ daysInMonth d.year d.month

instance (d : Date) : Decidable d.StructValid := by
  unfold Date.StructValid; infer_instance

/-- Validity as enforced by the `datetime.date` constructor:
`MINYEAR = 1 ≤ year ≤ MAXYEAR = 9999` plus the structural month/day checks. -/
def Date.PyValid (d : Date) : Prop :=
  d.StructValid ∧ d.year ≤ 9999

instance (d : Date) : Decidable d.PyValid := by
  unfold Date.PyValid; infer_instance

/-- The chronological successor of a calendar date (the next day).  This is a
specification-side definition used to give "difference in days" a meaning
independent of the ordinal formula. -/
def Date.next (d : Date) : Date :=
  if d.day < daysInMonth d.year d.month then ⟨d.year, d.month, d.day + 1⟩
  else if d.month < 12 then ⟨d.year, d.month + 1, 1⟩
  else ⟨d.year + 1, 1, 1⟩

theorem daysBeforeMonth_succ (y m : ℕ) (h1 : 1 ≤ m) (h2 : m ≤ 11) :
    daysBeforeMonth y (m + 1) = daysBeforeMonth y m + daysInMonth y m := by
  interval_cases m <;>
    cases h : isLeap y <;>
      simp [daysBeforeMonth, daysInMonth, h]

theorem daysBeforeYear_add_div100 (y : ℕ) :
    daysBeforeYear y + (y - 1) / 100 = (y - 1) * 365 + (y - 1) / 4 + (y - 1) / 400 := by
  unfold daysBeforeYear
  omega

theorem daysBeforeYear_succ (y : ℕ) (h : 1 ≤ y) :
    daysBeforeYear (y + 1) = daysBeforeYear y + 365 + (if isLeap y then 1 else 0) := by
  have e1 := daysBeforeYear_add_div100 (y + 1)
  have e2 := daysBeforeYear_add_div100 y
  simp only [Nat.add_sub_cancel] at e1
  have hmod : isLeap y = true ↔ ((y % 4 = 0 ∧ y % 100 ≠ 0) ∨ y % 400 = 0) := by
    simp [isLeap]
  cases hl : isLeap y with
  | false =>
      have hf : ¬((y % 4 = 0 ∧ y % 100 ≠ 0) ∨ y % 400 = 0) := by
        rw [← hmod]; simp [hl]
      rw [if_neg (by simp : ¬(false = true))]
      rcases Nat.eq_zero_or_pos (y % 4) with h4 | h4
      · have h100 : y % 100 = 0 := by tauto
        have h400 : y % 400 ≠ 0 := by tauto
        omega
      · omega
  | true =>
      have ht : (y % 4 = 0 ∧ y % 100 ≠ 0) ∨ y % 400 = 0 := hmod.mp hl
      rw [if_pos rfl]
      rcases ht with ⟨h4, h100⟩ | h400
      · omega
      · omega

theorem daysInMonth_pos (y m : ℕ) : 1 ≤ daysInMonth y m := by
  unfold daysInMonth
  split_ifs <;> omega

theorem Date.next_structValid {d : Date} (h : d.StructValid) : d.next.StructValid := by
  obtain ⟨y, m, day⟩ := d
  obtain ⟨hy, hm1, hm2, hd1, hd2⟩ := h
  dsimp only at hy hm1 hm2 hd1 hd2
  have hpos2 := daysInMonth_pos y (m + 1)
  have hpos3 := daysInMonth_pos (y + 1) 1
  unfold Date.next
  dsimp only
  split_ifs with h1 h2 <;> (unfold Date.StructValid; dsimp only) <;> omega

theorem toOrdinal_next {d : Date} (h : d.StructValid) :
    toOrdinal d.next = toOrdinal d + 1 := by
  obtain ⟨y, m, day⟩ := d
  obtain ⟨hy, hm1, hm2, hd1, hd2⟩ := h
  dsimp only at hy hm1 hm2 hd1 hd2
  unfold Date.next
  dsimp only
  split_ifs with h1 h2 <;> (unfold toOrdinal; dsimp only)
  · omega
  · have hstep := daysBeforeMonth_succ y m hm1 (by omega)
    omega
  · have hm12 : m = 12 := by omega
    subst hm12
    have hylast := daysBeforeYear_succ y hy
    have hdim : daysInMonth y 12 = 31 := by
      unfold daysInMonth
      norm_num
    have hdbm1 : daysBeforeMonth (y + 1) 1 = 0 := by
      unfold daysBeforeMonth
      norm_num
    have hdbm12 : daysBeforeMonth y 12 = 334 + (if isLeap y then 1 else 0) := by
      unfold daysBeforeMonth
      norm_num
    rw [hdim] at hd2
    rw [hylast, hdbm1, hdbm12]
    split_ifs <;> omega

theorem toOrdinal_iterate_next {d : Date} (h : d.StructValid) (n : ℕ) :
    (Date.next^[n] d).StructValid ∧ toOrdinal (Date.next^[n] d) = toOrdinal d + n := by
  induction n with
  | zero => exact ⟨h, rfl⟩
  | succ k ih =>
      rw [Function.iterate_succ_apply']
      refine ⟨Date.next_structValid ih.1, ?_⟩
      rw [toOrdinal_next ih.1, ih.2]
      omega

theorem daysInMonth_le (y m : ℕ) : daysInMonth y m ≤ 31 := by
  unfold daysInMonth
  split_ifs <;> omega

/-! ## The `%Y-%m-%d` parse (`datetime.strptime`)

`find_days_late` calls `datetime.strptime(due_date, '%Y-%m-%d')`.  CPython's
`_strptime` compiles that format into the anchored regular expression
`(?P<Y>\d\d\d\d)-(?P<m>1[0-2]|0[1-9]|[1-9])-(?P<d>3[01]|[12]\d|0[1-9]|[1-9])`
and requires the whole string to be consumed; the matched fields are then fed
to the `datetime.date` constructor, which checks `1 ≤ year ≤ 9999`,
`1 ≤ month ≤ 12` and `1 ≤ day ≤ daysInMonth year month` and raises
`ValueError` otherwise.  `parseMonth`/`parseDay` below realise the regex
alternations (the regex's backtracking is equivalent to this deterministic
two-digit-first strategy because a failed longer alternative always leaves a
longer unconsumed suffix). -/

/-- Value of a decimal digit character (`\d`), if it is one. -/
def digitVal (c : Char) : Option ℕ :=
  if 48 ≤ c.toNat ∧ c.toNat ≤ 57 then some (c.toNat - 48) else none

/-- The `%m` field: regex `1[0-2]|0[1-9]|[1-9]`. -/
def parseMonth : List Char → Option (ℕ × List Char)
  | [] => none
  | c :: rest =>
    if c = '1' then
      match rest with
      | c2 :: rest2 =>
          if c2 = '0' ∨ c2 = '1' ∨ c2 = '2' then some (10 + (c2.toNat - 48), rest2)
          else some (1, rest)
      | [] => some (1, [])
    else if c = '0' then
      match rest with
      | c2 :: rest2 =>
          if 49 ≤ c2.toNat ∧ c2.toNat ≤ 57 then some (c2.toNat - 48, rest2) else none
      | [] => none
    else if 50 ≤ c.toNat ∧ c.toNat ≤ 57 then some (c.toNat - 48, rest)
    else none

/-- The `%d` field: regex `3[01]|[12]\d|0[1-9]|[1-9]`. -/
def parseDay : List Char → Option (ℕ × List Char)
  | [] => none
  | c :: rest =>
    if c = '3' then
      match rest with
      | c2 :: rest2 =>
          if c2 = '0' ∨ c2 = '1' then some (30 + (c2.toNat - 48), rest2)
          else some (3, rest)
      | [] => some (3, [])
    else if c = '1' ∨ c = '2' then
      match rest with
      | c2 :: rest2 =>
          if 48 ≤ c2.toNat ∧ c2.toNat ≤ 57 then
            some ((c.toNat - 48) * 10 + (c2.toNat - 48), rest2)
          else some (c.toNat - 48, rest)
      | [] => some (c.toNat - 48, [])
    else if c = '0' then
      match rest with
      | c2 :: rest2 =>
          if 49 ≤ c2.toNat ∧ c2.toNat ≤ 57 then some (c2.toNat - 48, rest2) else none
      | [] => none
    else if 52 ≤ c.toNat ∧ c.toNat ≤ 57 then some (c.toNat - 48, rest)
    else none

/-- `datetime.strptime(s, '%Y-%m-%d').date()`: `none` models the raised
`ValueError` (no regex match, unconverted trailing data, or an out-of-range
date rejected by the `datetime.date` constructor). -/
def parseDate (s : String) : Option Date :=
  match s.toList with
  | c1 :: c2 :: c3 :: c4 :: c5 :: rest =>
      match digitVal c1, digitVal c2, digitVal c3, digitVal c4 with
      | some y1, some y2, some y3, some y4 =>
          if c5 = '-' then
            let y := y1 * 1000 + y2 * 100 + y3 * 10 + y4
            match parseMonth rest with
            | some (m, rest2) =>
                match rest2 with
                | c6 :: rest3 =>
                    if c6 = '-' then
                      match parseDay rest3 with
                      | some (dd, rest4) =>
                          if rest4 = [] ∧ Date.PyValid ⟨y, m, dd⟩ then some ⟨y, m, dd⟩
                          else none
                      | none => none
                    else none
                | [] => none
            | none => none
          else none
      | _, _, _, _ => none
  | _ => none

/-- `find_days_late` (late-accounts.py lines 169-179), with the run date
(`datetime.today().date()`) made explicit.  `none` models the `ValueError`
raised by `strptime` on a string that does not match `%Y-%m-%d`; on success
Python returns `(today - due_date).days`, the difference of the two dates'
proleptic Gregorian ordinals. -/
def find_days_late (due_date : String) (today : Date) : Option ℤ :=
  (parseDate due_date).map fun d => (toOrdinal today : ℤ) - (toOrdinal d : ℤ)

theorem parseDate_pyValid {s : String} {d : Date} (h : parseDate s = some d) :
    d.PyValid := by
  unfold parseDate at h
  repeat' split at h
  all_goals try exact Option.noConfusion h
  simp only [] at h
  split at h
  · rename_i hcond
    obtain rfl := Option.some.inj h
    exact hcond.2
  · exact Option.noConfusion h

theorem toNat_ofNat_valid (n : ℕ) (h : n < 55296) : (Char.ofNat n).toNat = n := by
  unfold Char.ofNat
  rw [dif_pos (Or.inl h : n.isValidChar)]
  simp [Char.ofNatAux, Char.toNat, UInt32.toNat, BitVec.toNat_ofNatLt]

/-- Decimal digit character for `n % 10`; a specification-side helper used to
write down the canonical zero-padded ISO rendering of a date. -/
def dChar (n : ℕ) : Char := Char.ofNat (48 + n % 10)

theorem toNat_dChar (n : ℕ) : (dChar n).toNat = 48 + n % 10 :=
  toNat_ofNat_valid _ (by omega)

theorem digitVal_dChar (n : ℕ) : digitVal (dChar n) = some (n % 10) := by
  unfold digitVal
  rw [toNat_dChar, if_pos (by omega)]
  congr 1
  omega

/-- The canonical zero-padded ISO `YYYY-MM-DD` rendering of a date
(specification-side: the claims quantify over "due date strings in valid
YYYY-MM-DD form", which are exactly these strings for `PyValid` dates). -/
def toISOString (d : Date) : String :=
  ⟨[dChar (d.year / 1000), dChar (d.year / 100), dChar (d.year / 10), dChar d.year, '-',
    dChar (d.month / 10), dChar d.month, '-', dChar (d.day / 10), dChar d.day]⟩

theorem parseMonth_dChar (m : ℕ) (h1 : 1 ≤ m) (h2 : m ≤ 12) (rest : List Char) :
    parseMonth (dChar (m / 10) :: dChar m :: rest) = some (m, rest) := by
  by_cases hm : m < 10
  · have hq : m / 10 = 0 := by omega
    rw [hq, show dChar 0 = '0' from by decide]
    simp only [parseMonth]
    rw [if_pos (show 49 ≤ (dChar m).toNat ∧ (dChar m).toNat ≤ 57 from by rw [toNat_dChar]; omega)]
    rw [if_neg (show ('0' : Char) = '1' → False from by decide)]
    rw [if_pos trivial]
    simp only [Option.some.injEq, Prod.mk.injEq, toNat_dChar]
    exact ⟨by omega, trivial⟩
  · have hq : m / 10 = 1 := by omega
    rw [hq, show dChar 1 = '1' from by decide]
    simp only [parseMonth]
    rw [if_pos (show dChar m = '0' ∨ dChar m = '1' ∨ dChar m = '2' from by
      interval_cases m <;>
        first
          | omega
          | exact Or.inl (by decide)
          | exact Or.inr (Or.inl (by decide))
          | exact Or.inr (Or.inr (by decide)))]
    rw [if_pos trivial]
    simp only [Option.some.injEq, Prod.mk.injEq, toNat_dChar]
    exact ⟨by omega, trivial⟩

theorem parseDay_dChar (d : ℕ) (h1 : 1 ≤ d) (h2 : d ≤ 31) (rest : List Char) :
    parseDay (dChar (d / 10) :: dChar d :: rest) = some (d, rest) := by
  by_cases hd0 : d < 10
  · have hq : d / 10 = 0 := by omega
    rw [hq, show dChar 0 = '0' from by decide]
    simp only [parseDay]
    rw [if_neg (show ('0' : Char) = '3' → False from by decide)]
    rw [if_neg (show ('0' : Char) = '1' ∨ ('0' : Char) = '2' → False from by decide)]
    rw [if_pos trivial]
    rw [if_pos (show 49 ≤ (dChar d).toNat ∧ (dChar d).toNat ≤ 57 from by rw [toNat_dChar]; omega)]
    simp only [Option.some.injEq, Prod.mk.injEq, toNat_dChar]
    exact ⟨by omega, trivial⟩
  by_cases hd1 : d < 20
  · have hq : d / 10 = 1 := by omega
    rw [hq, show dChar 1 = '1' from by decide]
    simp only [parseDay]
    rw [if_neg (show ('1' : Char) = '3' → False from by decide)]
    rw [if_pos (Or.inl trivial : True ∨ ('1' : Char) = '2')]
    rw [if_pos (show 48 ≤ (dChar d).toNat ∧ (dChar d).toNat ≤ 57 from by rw [toNat_dChar]; omega)]
    simp only [Option.some.injEq, Prod.mk.injEq, toNat_dChar,
      show ('1' : Char).toNat = 49 from by decide]
    exact ⟨by omega, trivial⟩
  by_cases hd2 : d < 30
  · have hq : d / 10 = 2 := by omega
    rw [hq, show dChar 2 = '2' from by decide]
    simp only [parseDay]
    rw [if_neg (show ('2' : Char) = '3' → False from by decide)]
    rw [if_pos (Or.inr trivial : ('2' : Char) = '1' ∨ True)]
    rw [if_pos (show 48 ≤ (dChar d).toNat ∧ (dChar d).toNat ≤ 57 from by rw [toNat_dChar]; omega)]
    simp only [Option.some.injEq, Prod.mk.injEq, toNat_dChar,
      show ('2' : Char).toNat = 50 from by decide]
    exact ⟨by omega, trivial⟩
  · have hq : d / 10 = 3 := by omega
    rw [hq, show dChar 3 = '3' from by decide]
    simp only [parseDay]
    rw [if_pos trivial]
    rw [if_pos (show dChar d = '0' ∨ dChar d = '1' from by
      interval_cases d <;>
        first
          | omega
          | exact Or.inl (by decide)
          | exact Or.inr (by decide))]
    simp only [Option.some.injEq, Prod.mk.injEq, toNat_dChar]
    exact ⟨by omega, trivial⟩

theorem parseDate_toISOString {d : Date} (h : d.PyValid) :
    parseDate (toISOString d) = some d := by
  obtain ⟨y, m, day⟩ := d
  obtain ⟨⟨hy1, hm1, hm2, hday1, hday2⟩, hy2⟩ := h
  dsimp only at hy1 hm1 hm2 hday1 hday2 hy2
  have hday31 : day ≤ 31 := le_trans hday2 (daysInMonth_le y m)
  simp only [toISOString, parseDate, String.toList]
  simp only [digitVal_dChar]
  rw [if_pos trivial]
  rw [parseMonth_dChar m hm1 hm2]
  dsimp only
  rw [parseDay_dChar day hday1 hday31]
  rw [if_pos rfl]
  dsimp only
  have hy : y / 1000 % 10 * 1000 + y / 100 % 10 * 100 + y / 10 % 10 * 10 + y % 10 = y := by
    omega
  rw [hy]
  rw [if_pos ⟨rfl, ⟨⟨hy1, hm1, hm2, hday1, hday2⟩, hy2⟩⟩]

/-- C2: for every due-date string in valid `YYYY-MM-DD` form — the canonical
zero-padded ISO rendering `toISOString due` of a constructible date — and
every run date, `find_days_late` returns exactly the integer day difference
(run_date − due_date) in days, where "n days" means n iterations of the
calendar successor `Date.next`; negative values are returned as such when the
due date lies in the future, with no special-casing of negatives. -/
theorem c2_find_days_late_exact_day_difference
    (due run : Date) (n : ℕ) (hdue : due.PyValid) (hrun : run.StructValid) :
    (Date.next^[n] due = run →
        find_days_late (toISOString due) run = some (n : ℤ)) ∧
    (Date.next^[n] run = due →
        find_days_late (toISOString due) run = some (-(n : ℤ))) := by
  unfold find_days_late
  rw [parseDate_toISOString hdue]
  constructor
  · intro hfwd
    have hit := (toOrdinal_iterate_next hdue.1 n).2
    rw [hfwd] at hit
    show some ((toOrdinal run : ℤ) - (toOrdinal due : ℤ)) = some (n : ℤ)
    rw [hit]
    congr 1
    push_cast
    ring
  · intro hbwd
    have hit := (toOrdinal_iterate_next hrun n).2
    rw [hbwd] at hit
    show some ((toOrdinal run : ℤ) - (toOrdinal due : ℤ)) = some (-(n : ℤ))
    rw [hit]
    congr 1
    push_cast
    ring

theorem c2_find_days_late_exact_day_difference_witness :
    Date.next^[9] (⟨2024, 1, 1⟩ : Date) = (⟨2024, 1, 10⟩ : Date) ∧
    find_days_late "2024-01-01" ⟨2024, 1, 10⟩ = some 9 := by
  have hit : Date.next^[9] (⟨2024, 1, 1⟩ : Date) = (⟨2024, 1, 10⟩ : Date) := by decide
  refine ⟨hit, ?_⟩
  have h := (c2_find_days_late_exact_day_difference ⟨2024, 1, 1⟩ ⟨2024, 1, 10⟩ 9
    (by decide) (by decide)).1 hit
  rwa [show toISOString ⟨2024, 1, 1⟩ = "2024-01-01" from by decide] at h

/-- Specification-side recogniser for strings in strict (zero-padded) ISO
`YYYY-MM-DD` form denoting a constructible calendar date. -/
def isISODateString (s : String) : Bool :=
  match s.toList with
  | [a, b, c, e, s1, f, g, s2, h, i] =>
      (s1 = '-' && s2 = '-') &&
      ((digitVal a).isSome && (digitVal b).isSome && (digitVal c).isSome &&
       (digitVal e).isSome && (digitVal f).isSome && (digitVal g).isSome &&
       (digitVal h).isSome && (digitVal i).isSome) &&
      (let y := (digitVal a).getD 0 * 1000 + (digitVal b).getD 0 * 100 +
                (digitVal c).getD 0 * 10 + (digitVal e).getD 0
       let m := (digitVal f).getD 0 * 10 + (digitVal g).getD 0
       let dd := (digitVal h).getD 0 * 10 + (digitVal i).getD 0
       decide (Date.PyValid ⟨y, m, dd⟩))
  | _ => false

theorem eq_dChar_of_digitVal {c : Char} {v : ℕ} (h : digitVal c = some v) :
    c = dChar v ∧ v ≤ 9 := by
  unfold digitVal at h
  split at h
  · rename_i hc
    obtain rfl := Option.some.inj h
    refine ⟨?_, by omega⟩
    unfold dChar
    have hv : 48 + (c.toNat - 48) % 10 = c.toNat := by omega
    rw [hv, Char.ofNat_toNat]
  · exact Option.noConfusion h

theorem parseDate_isSome_of_isISO {s : String} (hs : isISODateString s = true) :
    (parseDate s).isSome := by
  unfold isISODateString at hs
  split at hs
  case h_2 => exact absurd hs (by simp)
  case h_1 a b c e s1 f g s2 hh i heq =>
    simp only [Bool.and_eq_true, decide_eq_true_eq, Option.isSome_iff_exists,
      and_assoc] at hs
    obtain ⟨hs1, hs2, ⟨va, hva⟩, ⟨vb, hvb⟩, ⟨vc, hvc⟩, ⟨ve, hve⟩, ⟨vf, hvf⟩,
      ⟨vg, hvg⟩, ⟨vh, hvh⟩, ⟨vi, hvi⟩, hvalid⟩ := hs
    rw [hva, hvb, hvc, hve, hvf, hvg, hvh, hvi] at hvalid
    simp only [Option.getD_some] at hvalid
    obtain ⟨ha, ha9⟩ := eq_dChar_of_digitVal hva
    obtain ⟨hb, hb9⟩ := eq_dChar_of_digitVal hvb
    obtain ⟨hc, hc9⟩ := eq_dChar_of_digitVal hvc
    obtain ⟨he, he9⟩ := eq_dChar_of_digitVal hve
    obtain ⟨hf, hf9⟩ := eq_dChar_of_digitVal hvf
    obtain ⟨hg, hg9⟩ := eq_dChar_of_digitVal hvg
    obtain ⟨hhh, hh9⟩ := eq_dChar_of_digitVal hvh
    obtain ⟨hi, hi9⟩ := eq_dChar_of_digitVal hvi
    subst ha hb hc he hf hg hhh hi
    subst hs1 hs2
    have hmchars : dChar vf = dChar ((vf * 10 + vg) / 10) ∧ dChar vg = dChar (vf * 10 + vg) := by
      constructor <;> (unfold dChar; congr 1; omega)
    have hdchars : dChar vh = dChar ((vh * 10 + vi) / 10) ∧ dChar vi = dChar (vh * 10 + vi) := by
      constructor <;> (unfold dChar; congr 1; omega)
    have hm1 : 1 ≤ vf * 10 + vg := hvalid.1.2.1
    have hm2 : vf * 10 + vg ≤ 12 := hvalid.1.2.2.1
    have hd1 : 1 ≤ vh * 10 + vi := hvalid.1.2.2.2.1
    have hd31 : vh * 10 + vi ≤ 31 :=
      le_trans hvalid.1.2.2.2.2 (daysInMonth_le _ _)
    unfold parseDate
    rw [heq]
    simp only [digitVal_dChar]
    rw [if_pos trivial]
    rw [hmchars.1, hmchars.2, parseMonth_dChar _ hm1 hm2]
    dsimp only
    rw [hdchars.1, hdchars.2, parseDay_dChar _ hd1 hd31]
    rw [if_pos rfl]
    dsimp only
    have hmods : va % 10 = va ∧ vb % 10 = vb ∧ vc % 10 = vc ∧ ve % 10 = ve := by
      refine ⟨?_, ?_, ?_, ?_⟩ <;> omega
    rw [hmods.1, hmods.2.1, hmods.2.2.1, hmods.2.2.2]
    rw [if_pos ⟨rfl, hvalid⟩]
    rfl

/-- C10 counterexample: "2024-1-1" is not in ISO `YYYY-MM-DD` form (its month
and day are not zero-padded), yet `find_days_late` does not raise on it: the
`%Y-%m-%d` parse accepts it and an integer is returned, refuting "for every
input string not in that format it raises an error". -/
theorem c10_counterexample_unpadded_string_accepted :
    isISODateString "2024-1-1" = false ∧
    parseDate "2024-1-1" = some ⟨2024, 1, 1⟩ ∧
    find_days_late "2024-1-1" ⟨2024, 1, 10⟩ = some 9 :=
  ⟨by decide, by decide, by decide⟩

/-- C10 (amended): `find_days_late`'s precondition is that its input parse
under Python's `%Y-%m-%d` format: it returns an integer exactly when
`parseDate` accepts the string and raises an error (`none`) on every other
input, so every due value reaching the classifier must be parseable in that
format.  The format accepts every strict ISO `YYYY-MM-DD` date string, but
also admits unpadded one-digit months and days, so the precondition is
slightly weaker than literal ISO `YYYY-MM-DD` form. -/
theorem c10_amended_find_days_late_precondition (s : String) (run : Date) :
    ((find_days_late s run).isSome ↔ (parseDate s).isSome) ∧
    (isISODateString s = true → (find_days_late s run).isSome) := by
  have hbase : (find_days_late s run).isSome ↔ (parseDate s).isSome := by
    unfold find_days_late
    cases parseDate s <;> simp
  exact ⟨hbase, fun hiso => hbase.mpr (parseDate_isSome_of_isISO hiso)⟩

theorem c10_amended_find_days_late_precondition_witness :
    (find_days_late "2024-01-01" ⟨2024, 1, 10⟩).isSome :=
  (c10_amended_find_days_late_precondition "2024-01-01" ⟨2024, 1, 10⟩).2 (by decide)

/-! ## JSON values and the `json` library text layer

The script moves data through the `json` standard library
(`response.json()`, `json.dump(..., indent=4)`, `json.load`) and through
`requests`.  `Json` models parsed Python values.  Floating-point JSON
numbers are outside the model: every number this program serialises or
inspects (`days_late`, status fields) is an integer. -/

inductive Json where
  | null
  | bool (b : Bool)
  | int (n : ℤ)
  | str (s : String)
  | arr (xs : List Json)
  | obj (fields : List (String × Json))

/-- Python runtime errors that the unguarded script code can raise, plus
`SystemExit` for `exit(1)`.  Any of them terminates the process (nothing in
the script catches them). -/
inductive PyErr where
  | keyError (k : String)
  | typeError
  | valueError
  | attributeError
  | jsonDecodeError
  | systemExit
  deriving DecidableEq, Repr

/-- Python `needle in haystack` on strings: contiguous substring test. -/
def strContainsSub (hay needle : String) : Bool :=
  hay.toList.tails.any fun t => needle.toList.isPrefixOf t

/-- Whitespace accepted between JSON tokens. -/
def skipWs : List Char → List Char
  | c :: rest =>
      if c = ' ' ∨ c = '\n' ∨ c = '\t' ∨ c = '\r' then skipWs rest else c :: rest
  | [] => []

/-- Value of a hexadecimal digit (either case), if it is one. -/
def hexVal (c : Char) : Option ℕ :=
  if 48 ≤ c.toNat ∧ c.toNat ≤ 57 then some (c.toNat - 48)
  else if 97 ≤ c.toNat ∧ c.toNat ≤ 102 then some (c.toNat - 87)
  else if 65 ≤ c.toNat ∧ c.toNat ≤ 70 then some (c.toNat - 55)
  else none

/-- The character denoted by a two-character JSON escape `\e`. -/
def escapeCharInv (e : Char) : Option Char :=
  if e = '"' then some '"'
  else if e = '\\' then some '\\'
  else if e = '/' then some '/'
  else if e = 'b' then some (Char.ofNat 8)
  else if e = 'f' then some (Char.ofNat 12)
  else if e = 'n' then some '\n'
  else if e = 'r' then some '\r'
  else if e = 't' then some '\t'
  else none

/-- Value of a four-digit hexadecimal escape payload. -/
def hex4Val (h1 h2 h3 h4 : Char) : Option ℕ :=
  match hexVal h1, hexVal h2, hexVal h3, hexVal h4 with
  | some a, some b, some c, some d => some (a * 4096 + b * 256 + c * 16 + d)
  | _, _, _, _ => none

/-- UTF-16 surrogate pair to code point. -/
def combineSurrogates (n m : ℕ) : ℕ :=
  65536 + (n - 55296) * 1024 + (m - 56320)

/-- Decoding of the payload of a `\uXXXX` escape (including a surrogate
pair): four hex digits via `hex4Val`; a high surrogate must be followed by
`\u` and a low surrogate, the pair combining into one character; a lone
surrogate yields `none` (a Python string outside this model's domain). -/
def decodeUEscape : List Char → Option (Char × List Char)
  | h1 :: h2 :: h3 :: h4 :: rest3 =>
    match hex4Val h1 h2 h3 h4 with
    | some n =>
        if 55296 ≤ n ∧ n ≤ 56319 then
          match rest3 with
          | e2 :: u2 :: g1 :: g2 :: g3 :: g4 :: rest4 =>
              if e2 = '\\' ∧ u2 = 'u' then
                match hex4Val g1 g2 g3 g4 with
                | some m =>
                    if 56320 ≤ m ∧ m ≤ 57343 then
                      some (Char.ofNat (combineSurrogates n m), rest4)
                    else none
                | none => none
              else none
          | _ => none
        else if 56320 ≤ n ∧ n ≤ 57343 then none
        else some (Char.ofNat n, rest3)
    | none => none
  | _ => none

/-- JSON string-literal body (after the opening quote), as in
`json.decoder.py_scanstring` in strict mode: unescaped control characters are
rejected, a closing quote ends the literal, backslash escapes are decoded
(`\uXXXX` via `hex4Val`, a high surrogate followed by a low surrogate being
combined into one character; a lone surrogate escape denotes a Python string
that is not a sequence of Unicode scalar values, outside this model's string
domain, and yields `none`).  Recursion fuel: one unit per consumed character,
so `length + 1` always suffices. -/
def parseStringBody : ℕ → List Char → Option (List Char × List Char)
  | 0, _ => none
  | fuel + 1, cs =>
    match cs with
    | [] => none
    | c :: rest =>
      if c = '"' then some ([], rest)
      else if c = '\\' then
        match rest with
        | e :: rest2 =>
          if e = 'u' then
            match decodeUEscape rest2 with
            | some (c2, rest3) =>
                match parseStringBody fuel rest3 with
                | some (cs2, r) => some (c2 :: cs2, r)
                | none => none
            | none => none
          else
            match escapeCharInv e with
            | some c2 =>
                match parseStringBody fuel rest2 with
                | some (cs2, r) => some (c2 :: cs2, r)
                | none => none
            | none => none
        | [] => none
      else if c.toNat < 32 then none
      else
        match parseStringBody fuel rest with
        | some (cs2, r) => some (c :: cs2, r)
        | none => none

/-- Leading run of decimal digits, as digit values. -/
def takeDigits : List Char → List ℕ × List Char
  | c :: rest =>
      if 48 ≤ c.toNat ∧ c.toNat ≤ 57 then
        let p := takeDigits rest
        ((c.toNat - 48) :: p.1, p.2)
      else ([], c :: rest)
  | [] => ([], [])

/-- Value of a most-significant-first digit list. -/
def digitsToNat (ds : List ℕ) : ℕ := ds.foldl (fun a d => a * 10 + d) 0

/-- JSON number parse, restricted to integers (the only numbers this program
produces or inspects).  JSON's no-leading-zero rule is enforced; a fraction or
exponent part is left unconsumed and makes the enclosing parse fail. -/
def parseNumber (cs : List Char) : Option (Json × List Char) :=
  let p : Bool × List Char :=
    match cs with
    | c :: r => if c = '-' then (true, r) else (false, cs)
    | [] => (false, cs)
  match takeDigits p.2 with
  | ([], _) => none
  | (d :: ds, r) =>
      if d = 0 ∧ ds ≠ [] then none
      else
        let v : ℤ := digitsToNat (d :: ds)
        some (.int (if p.1 then -v else v), r)

mutual

/-- JSON value parse (`json.loads` grammar, integers only), with recursion
fuel; two units of fuel per input character always suffice. -/
def parseValue : ℕ → List Char → Option (Json × List Char)
  | 0, _ => none
  | fuel + 1, cs =>
    match skipWs cs with
    | [] => none
    | c :: rest =>
      if c = 'n' then
        match rest with
        | 'u' :: 'l' :: 'l' :: r => some (.null, r)
        | _ => none
      else if c = 't' then
        match rest with
        | 'r' :: 'u' :: 'e' :: r => some (.bool true, r)
        | _ => none
      else if c = 'f' then
        match rest with
        | 'a' :: 'l' :: 's' :: 'e' :: r => some (.bool false, r)
        | _ => none
      else if c = '"' then
        match parseStringBody (rest.length + 1) rest with
        | some (cs2, r) => some (.str ⟨cs2⟩, r)
        | none => none
      else if c = '[' then
        match skipWs rest with
        | ']' :: r => some (.arr [], r)
        | _ => parseElems fuel (skipWs rest) []
      else if c.toNat = 123 then
        match skipWs rest with
        | c2 :: r =>
            if c2.toNat = 125 then some (.obj [], r)
            else parseMembers fuel (skipWs rest) []
        | [] => none
      else if c = '-' ∨ (48 ≤ c.toNat ∧ c.toNat ≤ 57) then
        parseNumber (c :: rest)
      else none

/-- Array elements after `[`, accumulating parsed items. -/
def parseElems : ℕ → List Char → List Json → Option (Json × List Char)
  | 0, _, _ => none
  | fuel + 1, cs, acc =>
    match parseValue fuel cs with
    | some (v, r) =>
      match skipWs r with
      | ',' :: r2 => parseElems fuel r2 (acc ++ [v])
      | ']' :: r2 => some (.arr (acc ++ [v]), r2)
      | _ => none
    | none => none

/-- Object members after `{`, accumulating parsed key-value pairs. -/
def parseMembers : ℕ → List Char → List (String × Json) → Option (Json × List Char)
  | 0, _, _ => none
  | fuel + 1, cs, acc =>
    match skipWs cs with
    | '"' :: rest =>
      match parseStringBody (rest.length + 1) rest with
      | some (kcs, r) =>
        match skipWs r with
        | ':' :: r2 =>
          match parseValue fuel r2 with
          | some (v, r3) =>
            match skipWs r3 with
            | ',' :: r4 => parseMembers fuel r4 (acc ++ [(⟨kcs⟩, v)])
            | c5 :: r4 =>
                if c5.toNat = 125 then some (.obj (acc ++ [(⟨kcs⟩, v)]), r4)
                else none
            | [] => none
          | none => none
        | _ => none
      | none => none
    | _ => none

end

/-- `json.loads` / `json.load` / `response.json()`: `none` models
`json.JSONDecodeError` (including trailing non-whitespace data). -/
def parseJson (s : String) : Option Json :=
  match parseValue (2 * s.toList.length + 2) s.toList with
  | some (v, r) => if skipWs r = [] then some v else none
  | none => none

def lcurly : Char := Char.ofNat 123

def rcurly : Char := Char.ofNat 125

/-- Hexadecimal digit character, lowercase, as Python's `'%04x'` prints. -/
def hexDigitChar (n : ℕ) : Char :=
  if n % 16 < 10 then Char.ofNat (48 + n % 16) else Char.ofNat (87 + n % 16)

/-- Four-digit lowercase hexadecimal rendering of `n % 65536`. -/
def hex4 (n : ℕ) : List Char :=
  [hexDigitChar (n / 4096 % 16), hexDigitChar (n / 256 % 16),
   hexDigitChar (n / 16 % 16), hexDigitChar (n % 16)]

/-- `json.dump` string escaping with the default `ensure_ascii=True`
(`json.encoder.py_encode_basestring_ascii`): printable ASCII other than `"`
and `\` is emitted verbatim, the short escapes are used where they exist, and
every other character becomes `\uXXXX`, astral characters as a UTF-16
surrogate pair. -/
def escapeChar (c : Char) : List Char :=
  if c = '"' then ['\\', '"']
  else if c = '\\' then ['\\', '\\']
  else if c.toNat = 8 then ['\\', 'b']
  else if c.toNat = 9 then ['\\', 't']
  else if c.toNat = 10 then ['\\', 'n']
  else if c.toNat = 12 then ['\\', 'f']
  else if c.toNat = 13 then ['\\', 'r']
  else if 32 ≤ c.toNat ∧ c.toNat ≤ 126 then [c]
  else if c.toNat < 65536 then '\\' :: 'u' :: hex4 c.toNat
  else
    ('\\' :: 'u' :: hex4 (55296 + (c.toNat - 65536) / 1024)) ++
    ('\\' :: 'u' :: hex4 (56320 + (c.toNat - 65536) % 1024))

/-- A JSON string literal for `s`. -/
def renderString (s : String) : List Char :=
  '"' :: (s.toList.map escapeChar).flatten ++ ['"']

/-- Python `repr` of an integer, as `json.dump` prints it. -/
def renderInt (n : ℤ) : List Char :=
  if n = 0 then ['0']
  else if n < 0 then '-' :: ((Nat.digits 10 n.natAbs).map dChar).reverse
  else ((Nat.digits 10 n.toNat).map dChar).reverse

mutual

/-- `json.dump(value, file, indent=4)` text at nesting depth `d`: newline per
item, items indented `4 * (d + 1)` spaces, closing bracket indented `4 * d`,
separators `','` and `': '` (the `indent` defaults of `json.dump`). -/
def renderJson : Json → ℕ → List Char
  | .null, _ => ['n', 'u', 'l', 'l']
  | .bool true, _ => ['t', 'r', 'u', 'e']
  | .bool false, _ => ['f', 'a', 'l', 's', 'e']
  | .int n, _ => renderInt n
  | .str s, _ => renderString s
  | .arr [], _ => ['[', ']']
  | .arr (x :: xs), d =>
      '[' :: '\n' :: renderItems (x :: xs) (d + 1) ++
        '\n' :: List.replicate (4 * d) ' ' ++ [']']
  | .obj [], _ => [lcurly, rcurly]
  | .obj (kv :: kvs), d =>
      lcurly :: '\n' :: renderMembers (kv :: kvs) (d + 1) ++
        '\n' :: List.replicate (4 * d) ' ' ++ [rcurly]

/-- Comma-and-newline separated array items at depth `d`. -/
def renderItems : List Json → ℕ → List Char
  | [], _ => []
  | [x], d => List.replicate (4 * d) ' ' ++ renderJson x d
  | x :: y :: xs, d =>
      List.replicate (4 * d) ' ' ++ renderJson x d ++
        ',' :: '\n' :: renderItems (y :: xs) d

/-- Comma-and-newline separated object members at depth `d`. -/
def renderMembers : List (String × Json) → ℕ → List Char
  | [], _ => []
  | [(k, v)], d => List.replicate (4 * d) ' ' ++ renderString k ++ ':' :: ' ' :: renderJson v d
  | (k, v) :: kv :: kvs, d =>
      List.replicate (4 * d) ' ' ++ renderString k ++ ':' :: ' ' :: renderJson v d ++
        ',' :: '\n' :: renderMembers (kv :: kvs) d

end

/-- `json.dumps(value, indent=4)`: the exact checkpoint file text. -/
def dumps (j : Json) : String := ⟨renderJson j 0⟩

/-! ## Checkpoint store (`save_to_file` / `load_from_file`) -/

/-- The file system seen by the checkpoint store: file name ↦ contents. -/
def FS := String → Option String

/-- `save_to_file` (late-accounts.py lines 94-96): open for writing and
`json.dump(companies, file, indent=4)`. -/
def save_to_file (value : Json) (filename : String) (fs : FS) : FS :=
  fun f => if f = filename then some (dumps value) else fs f

/-- Events the checkpoint loader logs. -/
inductive LoadLog where
  | fileNotFound (f : String)
  | invalidJson (f : String)
  deriving DecidableEq, Repr

/-- `load_from_file` (late-accounts.py lines 99-109): `json.load` the file;
on `FileNotFoundError` or `json.JSONDecodeError` log and return `[]`. -/
def load_from_file (filename : String) (fs : FS) : Json × List LoadLog :=
  match fs filename with
  | none => (.arr [], [.fileNotFound filename])
  | some text =>
      match parseJson text with
      | none => (.arr [], [.invalidJson filename])
      | some v => (v, [])

/-- A late-filing record, as built by `get_late_plcs` (`data = {...}` with
keys `name`, `link`, `due_date`, `days_late`); the spec's LateFilingRecord. -/
structure LateRec where
  name : String
  link : String
  due_date : String
  days_late : ℤ
  deriving DecidableEq, Repr

/-- The Python dict `{"name": ..., "link": ..., "due_date": ..., "days_late": ...}`. -/
def recToJson (r : LateRec) : Json :=
  .obj [("name", .str r.name), ("link", .str r.link),
        ("due_date", .str r.due_date), ("days_late", .int r.days_late)]

/-- A Python list of late-filing record dicts. -/
def recsToJson (rs : List LateRec) : Json := .arr (rs.map recToJson)

/-- Partial inverse of `recToJson`, witnessing that the dict determines the
record. -/
def jsonToRec : Json → Option LateRec
  | .obj [("name", .str n), ("link", .str l), ("due_date", .str d), ("days_late", .int k)] =>
      some ⟨n, l, d, k⟩
  | _ => none

/-- Partial inverse of `recsToJson`. -/
def jsonToRecs : Json → Option (List LateRec)
  | .arr xs => xs.mapM jsonToRec
  | _ => none

/-! ## Filing Status Fetcher (`get_company_profile`) -/

/-- An HTTP response as the `requests` library exposes it: status code and
body text (`response.text`); `response.json()` is `parseJson` of the text. -/
structure Response where
  status : ℕ
  text : String

/-- late-accounts.py line 62: seconds slept when throttled. -/
def API_RETRY_WAIT : ℕ := 30

/-- late-accounts.py line 63: attempt bound of the retry loop. -/
def MAX_API_RETRIES : ℕ := 50

/-- The `while retries < MAX_API_RETRIES` loop of `get_company_profile`
(late-accounts.py lines 143-167) with `MAX_API_RETRIES - retries` as fuel;
`resp i` is the response to the `(i+1)`-st request.  Result: the outcome
(`.ok profile`, or the `PyErr` that terminated the process — `systemExit`
for `exit(1)`, `jsonDecodeError` if `response.json()` raised), the number of
requests issued, and the list of sleep durations in seconds. -/
def getProfileLoop (resp : ℕ → Response) : ℕ → ℕ → Except PyErr Json × ℕ × List ℕ
  | 0, _ => (.error .systemExit, 0, [])
  | fuel + 1, i =>
      let r := resp i
      if r.status = 200 then
        if strContainsSub r.text "accounts" then
          match parseJson r.text with
          | some j => (.ok j, 1, [])
          | none => (.error .jsonDecodeError, 1, [])
        else (.error .systemExit, 1, [])
      else if r.status = 502 ∨ r.status = 429 then
        let rec_result := getProfileLoop resp fuel (i + 1)
        (rec_result.1, rec_result.2.1 + 1, API_RETRY_WAIT :: rec_result.2.2)
      else (.error .systemExit, 1, [])

/-- `get_company_profile` for one company, abstracted over the sequence of
responses the registry returns to its successive requests. -/
def get_company_profile (resp : ℕ → Response) : Except PyErr Json × ℕ × List ℕ :=
  getProfileLoop resp MAX_API_RETRIES 0

/-! ## Python dict/list semantics used by the classifier -/

/-- Python subscription `container[key]` for a string key on a parsed JSON
value: dict lookup (`KeyError` when absent), `TypeError` otherwise. -/
def Json.getItem : Json → String → Except PyErr Json
  | .obj fields, k =>
      match fields.lookup k with
      | some v => .ok v
      | none => .error (.keyError k)
  | _, _ => .error .typeError

/-- Python `key in container` for a string key: dict-key membership,
substring test on strings, element equality on lists, `TypeError` otherwise. -/
def pyIn (key : String) : Json → Except PyErr Bool
  | .obj fields => .ok (fields.any fun f => f.1 == key)
  | .str s => .ok (strContainsSub s key)
  | .arr xs => .ok (xs.any fun x =>
      match x with
      | .str s => s == key
      | _ => false)
  | _ => .error .typeError

/-- Python truthiness (`if x:`) of a parsed JSON value. -/
def Json.truthy : Json → Bool
  | .null => false
  | .bool b => b
  | .int n => n != 0
  | .str s => s != ""
  | .arr xs => !xs.isEmpty
  | .obj fields => !fields.isEmpty

/-! ## Lateness Classifier (body of the `get_late_plcs` loop) -/

/-- Events logged by the classifier that the spec talks about. -/
inductive ClassLog where
  | lateAccounts (r : LateRec)
  | inactiveAccounts
  | lateConfirmation (r : LateRec)
  | inactiveConfirmation
  deriving DecidableEq, Repr

/-- The `https://find-and-update...` link built for a record. -/
def link_for (number : String) : String :=
  "https://find-and-update.company-information.service.gov.uk/company/" ++ number

/-- One iteration of the `get_late_plcs` loop (late-accounts.py lines
190-231), for a company whose registry profile parsed to `profile`: the
accounts obligation, then the confirmation-statement obligation.  Returns the
accounts record (if any), the confirmation record (if any) and the log
events; an uncaught Python error (KeyError / TypeError / ValueError)
terminates the process and is returned as `.error`. -/
def classify_profile (profile : Json) (cname cnumber : String) (today : Date) :
    Except PyErr (Option LateRec × Option LateRec × List ClassLog) := do
  let accountsObj ← profile.getItem "accounts"
  let hasNext ← pyIn "next_accounts" accountsObj
  let accPart ←
    if hasNext then do
      let accounting ← accountsObj.getItem "next_accounts"
      let overdueVal ← accounting.getItem "overdue"
      if overdueVal.truthy then do
        let dueOn ← accounting.getItem "due_on"
        match dueOn with
        | .str sdue =>
            match find_days_late sdue today with
            | some k =>
                let r : LateRec := ⟨cname, link_for cnumber, sdue, k⟩
                pure (some r, [ClassLog.lateAccounts r])
            | none => throw PyErr.valueError
        | _ => throw PyErr.typeError
      else
        pure (none, [])
    else
      pure (none, [ClassLog.inactiveAccounts])
  let hasConf ← pyIn "confirmation_statement" profile
  let confPart ←
    if hasConf then do
      let confirmation ← profile.getItem "confirmation_statement"
      let overdueVal ← confirmation.getItem "overdue"
      if overdueVal.truthy then do
        let nextDue ← confirmation.getItem "next_due"
        match nextDue with
        | .str sdue =>
            match find_days_late sdue today with
            | some k =>
                let r : LateRec := ⟨cname, link_for cnumber, sdue, k⟩
                pure (some r, [ClassLog.lateConfirmation r])
            | none => throw PyErr.valueError
        | _ => throw PyErr.typeError
      else
        pure (none, [])
    else
      pure (none, [ClassLog.inactiveConfirmation])
  pure (accPart.1, confPart.1, accPart.2 ++ confPart.2)

/-- A company as enumerated by the registry search (data model `CompanyRef`). -/
structure CompanyRef where
  company_number : String
  company_name : String
  deriving DecidableEq, Repr

/-- `get_late_plcs` (late-accounts.py lines 181-234), abstracted over the
per-company profile fetch: sequentially fetch and classify each company,
accumulating the two record lists in enumeration order.  A fetch that
terminates the process, or a classifier error, aborts the whole loop. -/
def get_late_plcs (fetch : String → Except PyErr Json) (today : Date) :
    List CompanyRef → Except PyErr (List LateRec × List LateRec × List ClassLog)
  | [] => .ok ([], [], [])
  | plc :: rest => do
      let profile ← fetch plc.company_number
      let res ← classify_profile profile plc.company_name plc.company_number today
      let res2 ← get_late_plcs fetch today rest
      pure (res.1.toList ++ res2.1, res.2.1.toList ++ res2.2.1, res.2.2 ++ res2.2.2)

theorem getProfileLoop_throttled (resp : ℕ → Response)
    (h : ∀ j, (resp j).status = 429) (fuel i : ℕ) :
    getProfileLoop resp fuel i =
      (.error .systemExit, fuel, List.replicate fuel API_RETRY_WAIT) := by
  induction fuel generalizing i with
  | zero => rfl
  | succ k ih =>
      simp only [getProfileLoop, h i]
      norm_num
      rw [ih (i + 1)]
      simp [List.replicate_succ]

/-- C1: if every profile request for a company is answered with HTTP 429, the
fetcher issues exactly `MAX_API_RETRIES = 50` requests, sleeping a fixed
`API_RETRY_WAIT = 30` seconds after each throttled attempt, and then
terminates the process (`exit(1)`) without returning a `FilingProfile`; a
pipeline run containing that company therefore aborts and produces no
`LateFilingRecord` at all for it. -/
theorem c1_throttled_company_fifty_attempts_then_fatal
    (resp : ℕ → Response) (h : ∀ j, (resp j).status = 429) :
    get_company_profile resp =
      (.error .systemExit, 50, List.replicate 50 30) ∧
    ∀ (today : Date) (plc : CompanyRef) (rest : List CompanyRef),
      get_late_plcs (fun _ => (get_company_profile resp).1) today (plc :: rest) =
        .error .systemExit := by
  have hloop := getProfileLoop_throttled resp h MAX_API_RETRIES 0
  constructor
  · exact hloop
  · intro today plc rest
    have hfetch : (fun _ : String => (get_company_profile resp).1) =
        (fun _ => Except.error PyErr.systemExit) := by
      funext x
      show (getProfileLoop resp MAX_API_RETRIES 0).1 = _
      rw [hloop]
    rw [hfetch]
    rfl

theorem c1_throttled_company_fifty_attempts_then_fatal_witness :
    get_company_profile (fun _ => ⟨429, "Rate limited"⟩) =
      (.error .systemExit, 50, List.replicate 50 30) ∧
    get_late_plcs (fun _ => (get_company_profile (fun _ => ⟨429, "Rate limited"⟩)).1)
      ⟨2024, 1, 10⟩ [⟨"00000001", "TEST PLC"⟩] = .error .systemExit := by
  have h := c1_throttled_company_fifty_attempts_then_fatal
    (fun _ => ⟨429, "Rate limited"⟩) (fun _ => rfl)
  exact ⟨h.1, h.2 ⟨2024, 1, 10⟩ ⟨"00000001", "TEST PLC"⟩ []⟩

theorem getProfileLoop_succ (resp : ℕ → Response) (fuel i : ℕ) :
    getProfileLoop resp (fuel + 1) i =
      (if (resp i).status = 200 then
        if strContainsSub (resp i).text "accounts" then
          match parseJson (resp i).text with
          | some j => (.ok j, 1, [])
          | none => (.error .jsonDecodeError, 1, [])
        else (.error .systemExit, 1, [])
      else if (resp i).status = 502 ∨ (resp i).status = 429 then
        ((getProfileLoop resp fuel (i + 1)).1, (getProfileLoop resp fuel (i + 1)).2.1 + 1,
          API_RETRY_WAIT :: (getProfileLoop resp fuel (i + 1)).2.2)
      else (.error .systemExit, 1, [])) := rfl

/-- C4: an HTTP 200 profile response whose body lacks the recognizable
filing-obligation content (the substring "accounts") makes the fetcher abort
the whole process immediately (`exit(1)`) on the first request — one request
issued, no retry, no waiting. -/
theorem c4_unexpected_shape_fatal_no_retry
    (resp : ℕ → Response)
    (h200 : (resp 0).status = 200)
    (hbody : strContainsSub (resp 0).text "accounts" = false) :
    get_company_profile resp = (.error .systemExit, 1, []) := by
  show getProfileLoop resp MAX_API_RETRIES 0 = _
  rw [show MAX_API_RETRIES = 49 + 1 from rfl]
  rw [getProfileLoop_succ, h200, hbody]
  norm_num

theorem c4_unexpected_shape_fatal_no_retry_witness :
    get_company_profile
      (fun _ => ⟨200, "error page with no filing data"⟩) =
      (.error .systemExit, 1, []) :=
  c4_unexpected_shape_fatal_no_retry _ rfl (by rfl)

theorem except_bind_ok {α β : Type} (a : α) (f : α → Except PyErr β) :
    (Except.ok a >>= f) = f a := rfl

theorem except_bind_error {α β : Type} (e : PyErr) (f : α → Except PyErr β) :
    ((Except.error e : Except PyErr α) >>= f) = Except.error e := rfl

/-- C9: the fetcher's shape validation is only a substring test — any HTTP 200
response whose raw body contains "accounts" anywhere is accepted and its JSON
returned — while the classifier then subscripts `profile["accounts"]`
unconditionally; so an accepted profile that lacks a top-level "accounts" key
makes the classification step terminate the run with a `KeyError` instead of
producing records or logging an inactive case. -/
theorem c9_substring_acceptance_then_keyerror
    (resp : ℕ → Response) (p : Json) (fields : List (String × Json))
    (h200 : (resp 0).status = 200)
    (hbody : strContainsSub (resp 0).text "accounts" = true)
    (hparse : parseJson (resp 0).text = some p)
    (hp : p = .obj fields)
    (hnoacc : fields.lookup "accounts" = none) :
    get_company_profile resp = (.ok p, 1, []) ∧
    ∀ (today : Date) (plc : CompanyRef) (rest : List CompanyRef),
      get_late_plcs (fun _ => .ok p) today (plc :: rest) =
        .error (.keyError "accounts") := by
  constructor
  · show getProfileLoop resp MAX_API_RETRIES 0 = _
    rw [show MAX_API_RETRIES = 49 + 1 from rfl]
    rw [getProfileLoop_succ, h200, hbody, hparse]
    norm_num
  · intro today plc rest
    subst hp
    have hget : Json.getItem (.obj fields) "accounts" = .error (.keyError "accounts") := by
      simp [Json.getItem, hnoacc]
    have hclass : classify_profile (.obj fields) plc.company_name plc.company_number today =
        .error (.keyError "accounts") := by
      unfold classify_profile
      rw [hget]
      rfl
    simp only [get_late_plcs, except_bind_ok]
    rw [hclass]
    rfl

theorem c9_substring_acceptance_then_keyerror_witness :
    get_company_profile (fun _ => ⟨200, "\x7b\"x\": \"accounts\"\x7d"⟩) =
      (.ok (.obj [("x", .str "accounts")]), 1, []) ∧
    get_late_plcs (fun _ => .ok (.obj [("x", .str "accounts")]))
      ⟨2024, 1, 10⟩ [⟨"00000001", "TEST PLC"⟩] = .error (.keyError "accounts") := by
  have h := c9_substring_acceptance_then_keyerror
    (fun _ => ⟨200, "\x7b\"x\": \"accounts\"\x7d"⟩)
    (.obj [("x", .str "accounts")]) [("x", .str "accounts")]
    rfl (by rfl) (by rfl) rfl rfl
  exact ⟨h.1, h.2 ⟨2024, 1, 10⟩ ⟨"00000001", "TEST PLC"⟩ []⟩

/-! ## Issuer Cross-Reference (`create_html`) -/

/-- The flattening `flat_issuers = [item for sublist in issuers for item in
sublist]` (late-accounts.py line 321) followed by the Jinja row test
`company.name in issuers` (line 279): Python list membership, i.e. exact
`==` string comparison against the flattened union. -/
def isHighlighted (r : LateRec) (issuers : List (List String)) : Bool :=
  issuers.flatten.contains r.name

/-- C6: a record is flagged as a listed issuer iff its `name` is exactly equal
— case-sensitively, with no whitespace or legal-suffix normalisation, String
equality being codepoint equality — to some entry of the flattened union of
the issuer lists. -/
theorem c6_issuer_flag_exact_match (r : LateRec) (issuers : List (List String)) :
    isHighlighted r issuers = true ↔ ∃ l ∈ issuers, ∃ e ∈ l, e = r.name := by
  unfold isHighlighted
  constructor
  · intro h
    obtain ⟨s, hs, hmem⟩ := List.mem_flatten.mp (List.elem_iff.mp h)
    exact ⟨s, hs, r.name, hmem, rfl⟩
  · rintro ⟨s, hs, e, he, rfl⟩
    exact List.elem_iff.mpr (List.mem_flatten.mpr ⟨s, hs, he⟩)

/-! ## The spec's FilingProfile data model (§3) and C3 -/

/-- `accounts.next_accounts` of a registry profile. -/
structure NextAccounts where
  due_on : String
  overdue : Bool
  deriving DecidableEq, Repr

/-- `confirmation_statement` of a registry profile. -/
structure ConfirmationStatement where
  next_due : String
  overdue : Bool
  deriving DecidableEq, Repr

/-- The spec's FilingProfile: an `accounts` object with an optional
`next_accounts` entry, and an optional `confirmation_statement`. -/
structure FilingProfile where
  next_accounts : Option NextAccounts
  confirmation_statement : Option ConfirmationStatement
  deriving DecidableEq, Repr

/-- The JSON shape of a FilingProfile as the registry returns it. -/
def FilingProfile.toJson (p : FilingProfile) : Json :=
  .obj ([("accounts", .obj
          (match p.next_accounts with
           | some na => [("next_accounts",
               .obj [("due_on", .str na.due_on), ("overdue", .bool na.overdue)])]
           | none => []))] ++
        (match p.confirmation_statement with
         | some cs => [("confirmation_statement",
             .obj [("next_due", .str cs.next_due), ("overdue", .bool cs.overdue)])]
         | none => []))

/-- Closed form of the classifier on a well-shaped profile: the accounts
obligation yields a record iff `next_accounts` is present with a truthy
`overdue`, the confirmation obligation iff `confirmation_statement` is
present with a truthy `overdue`; a missing key is logged as inactive. -/
theorem classify_profile_toJson (p : FilingProfile) (cname cnumber : String) (today : Date) :
    classify_profile p.toJson cname cnumber today =
      (do
        let accPart ← (match p.next_accounts with
          | none => pure (none, [ClassLog.inactiveAccounts])
          | some na =>
              if na.overdue then
                match find_days_late na.due_on today with
                | some k =>
                    pure (some (⟨cname, link_for cnumber, na.due_on, k⟩ : LateRec),
                      [ClassLog.lateAccounts ⟨cname, link_for cnumber, na.due_on, k⟩])
                | none => throw PyErr.valueError
              else pure (none, [])
          : Except PyErr (Option LateRec × List ClassLog))
        let confPart ← (match p.confirmation_statement with
          | none => pure (none, [ClassLog.inactiveConfirmation])
          | some cs =>
              if cs.overdue then
                match find_days_late cs.next_due today with
                | some k =>
                    pure (some (⟨cname, link_for cnumber, cs.next_due, k⟩ : LateRec),
                      [ClassLog.lateConfirmation ⟨cname, link_for cnumber, cs.next_due, k⟩])
                | none => throw PyErr.valueError
              else pure (none, [])
          : Except PyErr (Option LateRec × List ClassLog))
        pure (accPart.1, confPart.1, accPart.2 ++ confPart.2)) := by
  obtain ⟨na, cs⟩ := p
  rcases na with _ | ⟨sdue, bacc⟩ <;> rcases cs with _ | ⟨snext, bconf⟩
  · rfl
  · cases bconf with
    | false => rfl
    | true =>
        simp [classify_profile, FilingProfile.toJson, Json.getItem, pyIn, Json.truthy,
          except_bind_ok, except_bind_error, List.lookup, List.any]
        cases find_days_late snext today <;> rfl
  · cases bacc with
    | false => rfl
    | true =>
        simp [classify_profile, FilingProfile.toJson, Json.getItem, pyIn, Json.truthy,
          except_bind_ok, except_bind_error, List.lookup, List.any]
        cases find_days_late sdue today <;> rfl
  · cases bacc with
    | false =>
        cases bconf with
        | false => rfl
        | true =>
            simp [classify_profile, FilingProfile.toJson, Json.getItem, pyIn, Json.truthy,
              except_bind_ok, except_bind_error, List.lookup, List.any]
            cases find_days_late snext today <;> rfl
    | true =>
        cases bconf with
        | false =>
            simp [classify_profile, FilingProfile.toJson, Json.getItem, pyIn, Json.truthy,
              except_bind_ok, except_bind_error, List.lookup, List.any]
            cases find_days_late sdue today <;> rfl
        | true =>
            simp [classify_profile, FilingProfile.toJson, Json.getItem, pyIn, Json.truthy,
              except_bind_ok, except_bind_error, List.lookup, List.any]
            cases find_days_late sdue today with
            | none => rfl
            | some k =>
                simp [except_bind_ok, except_bind_error]
                cases find_days_late snext today <;> rfl

theorem confPart_ok (p : FilingProfile) (cname cnumber : String) (today : Date)
    (hconf : ∀ cs, p.confirmation_statement = some cs → cs.overdue = true →
      (parseDate cs.next_due).isSome) :
    ∃ confRec confLogs,
      (match p.confirmation_statement with
        | none => pure (none, [ClassLog.inactiveConfirmation])
        | some cs =>
            if cs.overdue then
              match find_days_late cs.next_due today with
              | some k =>
                  pure (some (⟨cname, link_for cnumber, cs.next_due, k⟩ : LateRec),
                    [ClassLog.lateConfirmation ⟨cname, link_for cnumber, cs.next_due, k⟩])
              | none => throw PyErr.valueError
            else pure (none, [])
        : Except PyErr (Option LateRec × List ClassLog)) = .ok (confRec, confLogs) ∧
      ClassLog.inactiveAccounts ∉ confLogs := by
  cases hcs : p.confirmation_statement with
  | none => exact ⟨none, [ClassLog.inactiveConfirmation], rfl, by simp⟩
  | some cs =>
      cases hov : cs.overdue with
      | false =>
          refine ⟨none, [], ?_, by simp⟩
          simp only [hov, Bool.false_eq_true, if_false]
          rfl
      | true =>
          obtain ⟨dd, hdd⟩ := Option.isSome_iff_exists.mp (hconf cs hcs hov)
          have hk : find_days_late cs.next_due today =
              some ((toOrdinal today : ℤ) - (toOrdinal dd : ℤ)) := by
            unfold find_days_late
            rw [hdd]
            rfl
          refine ⟨some ⟨cname, link_for cnumber, cs.next_due,
            (toOrdinal today : ℤ) - (toOrdinal dd : ℤ)⟩,
            [ClassLog.lateConfirmation ⟨cname, link_for cnumber, cs.next_due,
              (toOrdinal today : ℤ) - (toOrdinal dd : ℤ)⟩], ?_, by simp⟩
          simp only [hov, if_true, hk]
          rfl

/-- C3: for a well-shaped `FilingProfile` (due dates parseable where an
obligation is overdue), the classifier produces an accounts
`LateFilingRecord` if and only if the profile's accounts object has a
`next_accounts` entry with `overdue = true`; a profile without
`next_accounts` yields no accounts record and logs the inactive case (no
error), and `overdue = false` yields no record and no inactive log. -/
theorem c3_accounts_record_iff_next_accounts_overdue
    (p : FilingProfile) (cname cnumber : String) (today : Date)
    (hdue : ∀ na, p.next_accounts = some na → na.overdue = true →
      (parseDate na.due_on).isSome)
    (hconf : ∀ cs, p.confirmation_statement = some cs → cs.overdue = true →
      (parseDate cs.next_due).isSome) :
    (∀ na, p.next_accounts = some na → na.overdue = true →
      ∃ k confRec logs,
        find_days_late na.due_on today = some k ∧
        classify_profile p.toJson cname cnumber today =
          .ok (some ⟨cname, link_for cnumber, na.due_on, k⟩, confRec, logs) ∧
        ClassLog.lateAccounts ⟨cname, link_for cnumber, na.due_on, k⟩ ∈ logs) ∧
    (p.next_accounts = none →
      ∃ confRec logs,
        classify_profile p.toJson cname cnumber today = .ok (none, confRec, logs) ∧
        ClassLog.inactiveAccounts ∈ logs) ∧
    (∀ na, p.next_accounts = some na → na.overdue = false →
      ∃ confRec logs,
        classify_profile p.toJson cname cnumber today = .ok (none, confRec, logs) ∧
        ClassLog.inactiveAccounts ∉ logs) := by
  obtain ⟨confRec, confLogs, hcp, hnomem⟩ := confPart_ok p cname cnumber today hconf
  refine ⟨?_, ?_, ?_⟩
  · intro na hna hov
    obtain ⟨dd, hdd⟩ := Option.isSome_iff_exists.mp (hdue na hna hov)
    have hk : find_days_late na.due_on today =
        some ((toOrdinal today : ℤ) - (toOrdinal dd : ℤ)) := by
      unfold find_days_late
      rw [hdd]
      rfl
    refine ⟨(toOrdinal today : ℤ) - (toOrdinal dd : ℤ), confRec,
      [ClassLog.lateAccounts ⟨cname, link_for cnumber, na.due_on,
        (toOrdinal today : ℤ) - (toOrdinal dd : ℤ)⟩] ++ confLogs, hk, ?_, by simp⟩
    rw [classify_profile_toJson, hna, hcp]
    simp [hov, hk, except_bind_ok]
  · intro hna
    refine ⟨confRec, [ClassLog.inactiveAccounts] ++ confLogs, ?_, by simp⟩
    rw [classify_profile_toJson, hna, hcp]
    simp [except_bind_ok]
  · intro na hna hov
    refine ⟨confRec, [] ++ confLogs, ?_, by simpa using hnomem⟩
    rw [classify_profile_toJson, hna, hcp]
    simp [hov, except_bind_ok]

theorem c3_accounts_record_iff_next_accounts_overdue_witness :
    ∃ k confRec logs,
      find_days_late "2024-01-01" ⟨2024, 1, 10⟩ = some k ∧
      classify_profile (FilingProfile.toJson ⟨some ⟨"2024-01-01", true⟩, none⟩)
        "TEST PLC" "00000001" ⟨2024, 1, 10⟩ =
        .ok (some ⟨"TEST PLC", link_for "00000001", "2024-01-01", k⟩, confRec, logs) ∧
      ClassLog.lateAccounts ⟨"TEST PLC", link_for "00000001", "2024-01-01", k⟩ ∈ logs :=
  (c3_accounts_record_iff_next_accounts_overdue ⟨some ⟨"2024-01-01", true⟩, none⟩
    "TEST PLC" "00000001" ⟨2024, 1, 10⟩
    (fun na hna _ => by
      obtain rfl := Option.some.inj hna
      decide)
    (fun cs hcs _ => Option.noConfusion hcs)).1
    ⟨"2024-01-01", true⟩ rfl rfl

/-! ## Round trip of the checkpoint text layer (for C7) -/

theorem skipWs_cons (c : Char) (cs : List Char) :
    skipWs (c :: cs) =
      if c = ' ' ∨ c = '\n' ∨ c = '\t' ∨ c = '\r' then skipWs cs else c :: cs := rfl

theorem skipWs_idem (cs : List Char) : skipWs (skipWs cs) = skipWs cs := by
  induction cs with
  | nil => rfl
  | cons c rest ih =>
      rw [skipWs_cons c rest]
      split_ifs with h
      · exact ih
      · rw [skipWs_cons, if_neg h]

theorem skipWs_cons_ws {c : Char} (h : c = ' ' ∨ c = '\n' ∨ c = '\t' ∨ c = '\r')
    (cs : List Char) : skipWs (c :: cs) = skipWs cs := by
  rw [skipWs_cons, if_pos h]

theorem skipWs_cons_not_ws {c : Char} (h : ¬(c = ' ' ∨ c = '\n' ∨ c = '\t' ∨ c = '\r'))
    (cs : List Char) : skipWs (c :: cs) = c :: cs := by
  rw [skipWs_cons, if_neg h]

theorem skipWs_replicate_space (k : ℕ) (cs : List Char) :
    skipWs (List.replicate k ' ' ++ cs) = skipWs cs := by
  induction k with
  | zero => rfl
  | succ n ih =>
      rw [List.replicate_succ, List.cons_append, skipWs_cons_ws (Or.inl rfl), ih]

theorem parseValue_skipWs (fuel : ℕ) (cs : List Char) :
    parseValue fuel cs = parseValue fuel (skipWs cs) := by
  cases fuel with
  | zero => rfl
  | succ f =>
      conv_lhs => rw [parseValue]
      conv_rhs => rw [parseValue]
      rw [skipWs_idem]

theorem parseElems_skipWs (fuel : ℕ) (cs : List Char) (acc : List Json) :
    parseElems fuel cs acc = parseElems fuel (skipWs cs) acc := by
  cases fuel with
  | zero => rfl
  | succ f =>
      rw [parseElems, parseElems, parseValue_skipWs f cs]

/-- Unicode scalar value bounds of a `Char`, at the ℕ level. -/
theorem char_toNat_valid (c : Char) :
    c.toNat < 55296 ∨ (57343 < c.toNat ∧ c.toNat < 1114112) := by
  have h := c.valid
  unfold UInt32.isValidChar at h
  unfold Nat.isValidChar at h
  exact h

theorem hexVal_hexDigitChar (d : ℕ) (h : d < 16) : hexVal (hexDigitChar d) = some d := by
  unfold hexDigitChar hexVal
  have hd : d % 16 = d := Nat.mod_eq_of_lt h
  rw [hd]
  by_cases h10 : d < 10
  · rw [if_pos h10, toNat_ofNat_valid _ (by omega)]
    rw [if_pos (by omega)]
    congr 1
    omega
  · rw [if_neg h10, toNat_ofNat_valid _ (by omega)]
    rw [if_neg (by omega), if_pos (by omega)]
    congr 1
    omega

theorem hex4Val_hexChars (t : ℕ) (h : t < 65536) :
    hex4Val (hexDigitChar (t / 4096 % 16)) (hexDigitChar (t / 256 % 16))
      (hexDigitChar (t / 16 % 16)) (hexDigitChar (t % 16)) = some t := by
  unfold hex4Val
  rw [hexVal_hexDigitChar _ (by omega), hexVal_hexDigitChar _ (by omega),
      hexVal_hexDigitChar _ (by omega), hexVal_hexDigitChar _ (by omega)]
  show some (t / 4096 % 16 * 4096 + t / 256 % 16 * 256 + t / 16 % 16 * 16 + t % 16) = some t
  congr 1
  omega

theorem decodeUEscape_bmp (t : ℕ) (rest3 : List Char) (ht : t < 65536)
    (hs : ¬(55296 ≤ t ∧ t ≤ 57343)) :
    decodeUEscape (hex4 t ++ rest3) = some (Char.ofNat t, rest3) := by
  unfold hex4
  show decodeUEscape (_ :: _ :: _ :: _ :: rest3) = _
  simp only [decodeUEscape]
  rw [hex4Val_hexChars t ht]
  dsimp only
  rw [if_neg (show 55296 ≤ t ∧ t ≤ 56319 → False from by omega),
      if_neg (show 56320 ≤ t ∧ t ≤ 57343 → False from by omega)]

theorem decodeUEscape_astral (n m : ℕ) (rest4 : List Char)
    (hn : 55296 ≤ n ∧ n ≤ 56319) (hm : 56320 ≤ m ∧ m ≤ 57343) :
    decodeUEscape (hex4 n ++ '\\' :: 'u' :: hex4 m ++ rest4) =
      some (Char.ofNat (combineSurrogates n m), rest4) := by
  unfold hex4
  show decodeUEscape (_ :: _ :: _ :: _ :: '\\' :: 'u' :: _ :: _ :: _ :: _ :: rest4) = _
  simp only [decodeUEscape]
  rw [hex4Val_hexChars n (by omega)]
  dsimp only
  rw [if_pos hn, if_pos (⟨trivial, trivial⟩ : True ∧ True)]
  rw [hex4Val_hexChars m (by omega)]
  dsimp only
  rw [if_pos hm]

theorem parseStringBody_escape_u (f : ℕ) (rest2 rest3 : List Char) (c2 : Char)
    (h : decodeUEscape rest2 = some (c2, rest3)) :
    parseStringBody (f + 1) ('\\' :: 'u' :: rest2) =
      (match parseStringBody f rest3 with
       | some (cs, r) => some (c2 :: cs, r)
       | none => none) := by
  simp only [parseStringBody]
  rw [if_neg (show ('\\' : Char) = '"' → False from by decide), if_pos trivial,
    if_pos trivial, h]

theorem parseStringBody_escape_named (c e : Char) (f : ℕ) (tail : List Char)
    (h : escapeCharInv e = some c) (hu : ¬e = 'u') :
    parseStringBody (f + 1) ('\\' :: e :: tail) =
      (match parseStringBody f tail with
       | some (cs, r) => some (c :: cs, r)
       | none => none) := by
  simp only [parseStringBody]
  rw [if_neg (show ('\\' : Char) = '"' → False from by decide), if_pos trivial,
    if_neg hu, h]

theorem parseStringBody_escape_plain (c : Char) (f : ℕ) (tail : List Char)
    (h1 : ¬c = '"') (h2 : ¬c = '\\') (h3 : ¬c.toNat < 32) :
    parseStringBody (f + 1) (c :: tail) =
      (match parseStringBody f tail with
       | some (cs, r) => some (c :: cs, r)
       | none => none) := by
  simp only [parseStringBody]
  rw [if_neg h1, if_neg h2, if_neg h3]

set_option maxRecDepth 4000 in
theorem parseStringBody_escapeChar (c : Char) (f : ℕ) (tail : List Char) :
    parseStringBody (f + 1) (escapeChar c ++ tail) =
      (match parseStringBody f tail with
       | some (cs, r) => some (c :: cs, r)
       | none => none) := by
  by_cases h1 : c = '"'
  · subst h1
    exact parseStringBody_escape_named _ _ f tail (by decide) (by decide)
  by_cases h2 : c = '\\'
  · subst h2
    exact parseStringBody_escape_named _ _ f tail (by decide) (by decide)
  by_cases h3 : c.toNat = 8
  · have hc : c = Char.ofNat 8 := by rw [← h3, Char.ofNat_toNat]
    subst hc
    exact parseStringBody_escape_named _ 'b' f tail (by decide) (by decide)
  by_cases h4 : c.toNat = 9
  · have hc : c = Char.ofNat 9 := by rw [← h4, Char.ofNat_toNat]
    subst hc
    exact parseStringBody_escape_named _ 't' f tail (by decide) (by decide)
  by_cases h5 : c.toNat = 10
  · have hc : c = Char.ofNat 10 := by rw [← h5, Char.ofNat_toNat]
    subst hc
    exact parseStringBody_escape_named _ 'n' f tail (by decide) (by decide)
  by_cases h6 : c.toNat = 12
  · have hc : c = Char.ofNat 12 := by rw [← h6, Char.ofNat_toNat]
    subst hc
    exact parseStringBody_escape_named _ 'f' f tail (by decide) (by decide)
  by_cases h7 : c.toNat = 13
  · have hc : c = Char.ofNat 13 := by rw [← h7, Char.ofNat_toNat]
    subst hc
    exact parseStringBody_escape_named _ 'r' f tail (by decide) (by decide)
  by_cases h8 : 32 ≤ c.toNat ∧ c.toNat ≤ 126
  · have hesc : escapeChar c = [c] := by
      unfold escapeChar
      rw [if_neg h1, if_neg h2, if_neg (by omega), if_neg (by omega), if_neg (by omega),
        if_neg (by omega), if_neg (by omega), if_pos h8]
    rw [hesc]
    exact parseStringBody_escape_plain c f tail h1 h2 (by omega)
  have hval := char_toNat_valid c
  by_cases h9 : c.toNat < 65536
  · have hesc : escapeChar c = '\\' :: 'u' :: hex4 c.toNat := by
      unfold escapeChar
      rw [if_neg h1, if_neg h2, if_neg (by omega), if_neg (by omega), if_neg (by omega),
        if_neg (by omega), if_neg (by omega), if_neg (by omega), if_pos h9]
    have hdec : decodeUEscape (hex4 c.toNat ++ tail) = some (c, tail) := by
      rw [decodeUEscape_bmp c.toNat tail h9 (by omega), Char.ofNat_toNat]
    rw [hesc]
    exact parseStringBody_escape_u f _ tail c hdec
  · have hesc : escapeChar c =
        ('\\' :: 'u' :: hex4 (55296 + (c.toNat - 65536) / 1024)) ++
        ('\\' :: 'u' :: hex4 (56320 + (c.toNat - 65536) % 1024)) := by
      unfold escapeChar
      rw [if_neg h1, if_neg h2, if_neg (by omega), if_neg (by omega), if_neg (by omega),
        if_neg (by omega), if_neg (by omega), if_neg (by omega), if_neg h9]
    have hchar : Char.ofNat (combineSurrogates (55296 + (c.toNat - 65536) / 1024)
        (56320 + (c.toNat - 65536) % 1024)) = c := by
      rw [show combineSurrogates (55296 + (c.toNat - 65536) / 1024)
            (56320 + (c.toNat - 65536) % 1024) = c.toNat from by
          unfold combineSurrogates
          omega]
      rw [Char.ofNat_toNat]
    have hdec : decodeUEscape (hex4 (55296 + (c.toNat - 65536) / 1024) ++
        '\\' :: 'u' :: hex4 (56320 + (c.toNat - 65536) % 1024) ++ tail) = some (c, tail) := by
      rw [decodeUEscape_astral _ _ tail (by omega) (by omega), hchar]
    rw [hesc, List.append_assoc]
    exact parseStringBody_escape_u f _ tail c hdec

theorem parseMembers_skipWs (fuel : ℕ) (cs : List Char) (acc : List (String × Json)) :
    parseMembers fuel cs acc = parseMembers fuel (skipWs cs) acc := by
  cases fuel with
  | zero => rfl
  | succ f =>
      conv_lhs => rw [parseMembers]
      conv_rhs => rw [parseMembers]
      rw [skipWs_idem]

theorem escapeChar_length_pos (c : Char) : 1 ≤ (escapeChar c).length := by
  unfold escapeChar
  split_ifs <;> simp [hex4]

theorem length_le_flatten_escape (s : List Char) :
    s.length ≤ ((s.map escapeChar).flatten).length := by
  induction s with
  | nil => simp
  | cons c cs ih =>
      simp only [List.map_cons, List.flatten_cons, List.length_append, List.length_cons]
      have := escapeChar_length_pos c
      omega

theorem parseStringBody_escapeFlatten (s : List Char) :
    ∀ (f : ℕ) (tail : List Char), s.length + 1 ≤ f →
      parseStringBody f (((s.map escapeChar).flatten) ++ '"' :: tail) = some (s, tail) := by
  induction s with
  | nil =>
      intro f tail hf
      cases f with
      | zero => omega
      | succ f =>
          simp only [List.map_nil, List.flatten_nil, List.nil_append]
          simp only [parseStringBody]
          rw [if_pos trivial]
  | cons c cs ih =>
      intro f tail hf
      cases f with
      | zero => omega
      | succ f =>
          simp only [List.map_cons, List.flatten_cons, List.append_assoc]
          rw [parseStringBody_escapeChar c f _]
          rw [ih f tail (by simp only [List.length_cons] at hf; omega)]

theorem parseValue_renderString (f : ℕ) (s : String) (tail : List Char) :
    parseValue (f + 1) (renderString s ++ tail) = some (.str s, tail) := by
  obtain ⟨l⟩ := s
  show parseValue (f + 1) (('"' :: ((l.map escapeChar).flatten ++ ['"'])) ++ tail) = _
  rw [List.cons_append, List.append_assoc]
  simp only [List.singleton_append]
  rw [parseValue]
  rw [skipWs_cons_not_ws (by decide)]
  dsimp only
  rw [if_neg (show ('"' : Char) = 'n' → False from by decide),
      if_neg (show ('"' : Char) = 't' → False from by decide),
      if_neg (show ('"' : Char) = 'f' → False from by decide),
      if_pos rfl]
  rw [parseStringBody_escapeFlatten l _ tail (by
    have h := length_le_flatten_escape l
    simp only [List.length_append, List.length_cons]
    omega)]

theorem takeDigits_cons_not_digit (c : Char) (rest : List Char)
    (h : ¬(48 ≤ c.toNat ∧ c.toNat ≤ 57)) :
    takeDigits (c :: rest) = ([], c :: rest) := by
  simp only [takeDigits]
  exact if_neg h

theorem takeDigits_mapDChar (ds : List ℕ) (hds : ∀ d ∈ ds, d < 10) (tail : List Char)
    (ht : takeDigits tail = ([], tail)) :
    takeDigits (ds.map dChar ++ tail) = (ds, tail) := by
  induction ds with
  | nil => simpa using ht
  | cons d ds ih =>
      have hd : d < 10 := hds d (List.mem_cons_self d ds)
      simp only [List.map_cons, List.cons_append]
      simp only [takeDigits, toNat_dChar]
      rw [Nat.mod_eq_of_lt hd]
      rw [if_pos (by omega : 48 ≤ 48 + d ∧ 48 + d ≤ 57)]
      rw [ih (fun x hx => hds x (List.mem_cons_of_mem d hx))]
      have h48 : 48 + d - 48 = d := by omega
      rw [h48]

theorem foldl_digits_reverse (l : List ℕ) :
    ∀ init : ℕ, (l.reverse).foldl (fun a d => a * 10 + d) init
      = init * 10 ^ l.length + Nat.ofDigits 10 l := by
  induction l with
  | nil => intro init; simp [Nat.ofDigits_nil]
  | cons x l ih =>
      intro init
      rw [List.reverse_cons, List.foldl_append]
      simp only [List.foldl_cons, List.foldl_nil]
      rw [ih init, Nat.ofDigits_cons]
      rw [List.length_cons, pow_succ]
      ring

theorem digitsToNat_reverse_digits (m : ℕ) :
    digitsToNat ((Nat.digits 10 m).reverse) = m := by
  unfold digitsToNat
  rw [foldl_digits_reverse]
  simp [Nat.ofDigits_digits]

theorem digits_reverse_head (m : ℕ) (hm : m ≠ 0) :
    ∃ d ds, (Nat.digits 10 m).reverse = d :: ds ∧ d ≠ 0 ∧ d < 10 ∧
      (∀ x ∈ ds, x < 10) := by
  have hne : Nat.digits 10 m ≠ [] := Nat.digits_ne_nil_iff_ne_zero.mpr hm
  have hne2 : (Nat.digits 10 m).reverse ≠ [] := by simpa using hne
  obtain ⟨d, ds, hrev⟩ := List.exists_cons_of_ne_nil hne2
  have hmemd : d ∈ Nat.digits 10 m := by
    rw [← List.mem_reverse, hrev]
    exact List.mem_cons_self d ds
  refine ⟨d, ds, hrev, ?_, Nat.digits_lt_base (by norm_num) hmemd, ?_⟩
  · have h1 : (Nat.digits 10 m).getLast? = some d := by
      rw [← List.head?_reverse, hrev]
      rfl
    have h2 : (Nat.digits 10 m).getLast? = some ((Nat.digits 10 m).getLast hne) :=
      List.getLast?_eq_getLast _ hne
    have h3 : d = (Nat.digits 10 m).getLast hne := by
      rw [h1] at h2
      exact Option.some.inj h2
    rw [h3]
    exact Nat.getLast_digit_ne_zero 10 hm
  · intro x hx
    have : x ∈ Nat.digits 10 m := by
      rw [← List.mem_reverse, hrev]
      exact List.mem_cons_of_mem d hx
    exact Nat.digits_lt_base (by norm_num) this

theorem parseNumber_neg_cons (rest : List Char) :
    parseNumber ('-' :: rest) =
      (match takeDigits rest with
       | ([], _) => none
       | (d :: ds, r) =>
           if d = 0 ∧ ds ≠ [] then none
           else some (.int (-(digitsToNat (d :: ds) : ℤ)), r)) := rfl

theorem parseNumber_nonneg_cons (c : Char) (rest : List Char) (hc : ¬c = '-') :
    parseNumber (c :: rest) =
      (match takeDigits (c :: rest) with
       | ([], _) => none
       | (d :: ds, r) =>
           if d = 0 ∧ ds ≠ [] then none
           else some (.int ((digitsToNat (d :: ds) : ℤ)), r)) := by
  simp only [parseNumber]
  simp only [if_neg hc]
  rfl

theorem parseNumber_renderInt (n : ℤ) (tail : List Char)
    (ht : takeDigits tail = ([], tail)) :
    parseNumber (renderInt n ++ tail) = some (.int n, tail) := by
  rcases lt_trichotomy n 0 with hneg | rfl | hpos
  · have hm : n.natAbs ≠ 0 := by omega
    obtain ⟨d, ds, hrev, hd0, hd10, hds10⟩ := digits_reverse_head n.natAbs hm
    have hmap : ((Nat.digits 10 n.natAbs).map dChar).reverse
        = (Nat.digits 10 n.natAbs).reverse.map dChar := by
      simp [List.map_reverse]
    unfold renderInt
    rw [if_neg (by omega : ¬n = 0), if_pos hneg, hmap, hrev, List.cons_append]
    rw [parseNumber_neg_cons]
    rw [takeDigits_mapDChar (d :: ds)
      (by
        intro x hx
        rcases List.mem_cons.mp hx with rfl | hx2
        · exact hd10
        · exact hds10 x hx2) tail ht]
    dsimp only
    rw [if_neg (by rintro ⟨h0, h1⟩; exact hd0 h0)]
    have hval : digitsToNat (d :: ds) = n.natAbs := by
      rw [← hrev, digitsToNat_reverse_digits]
    rw [hval]
    have hn : -(n.natAbs : ℤ) = n := by omega
    rw [hn]
  · simp [renderInt, parseNumber, takeDigits, ht, digitsToNat]
  · have hm : n.toNat ≠ 0 := by omega
    obtain ⟨d, ds, hrev, hd0, hd10, hds10⟩ := digits_reverse_head n.toNat hm
    have hmap : ((Nat.digits 10 n.toNat).map dChar).reverse
        = (Nat.digits 10 n.toNat).reverse.map dChar := by
      simp [List.map_reverse]
    have hhead : ¬dChar d = '-' := by
      intro h
      have h2 := congrArg Char.toNat h
      rw [toNat_dChar] at h2
      have h3 : ('-').toNat = 45 := rfl
      omega
    unfold renderInt
    rw [if_neg (by omega : ¬n = 0), if_neg (by omega : ¬n < 0), hmap, hrev,
      List.map_cons, List.cons_append]
    rw [parseNumber_nonneg_cons _ _ hhead]
    rw [show dChar d :: (ds.map dChar ++ tail) = (d :: ds).map dChar ++ tail from by
      simp [List.map_cons]]
    rw [takeDigits_mapDChar (d :: ds)
      (by
        intro x hx
        rcases List.mem_cons.mp hx with rfl | hx2
        · exact hd10
        · exact hds10 x hx2) tail ht]
    dsimp only
    rw [if_neg (by rintro ⟨h0, h1⟩; exact hd0 h0)]
    have hval : digitsToNat (d :: ds) = n.toNat := by
      rw [← hrev, digitsToNat_reverse_digits]
    rw [hval]
    have hn : ((n.toNat : ℤ)) = n := by omega
    rw [hn]

theorem renderInt_head (n : ℤ) :
    ∃ c rest, renderInt n = c :: rest ∧ (c = '-' ∨ (48 ≤ c.toNat ∧ c.toNat ≤ 57)) := by
  unfold renderInt
  split_ifs with h0 hneg
  · exact ⟨'0', [], rfl, Or.inr (by decide)⟩
  · exact ⟨'-', _, rfl, Or.inl rfl⟩
  · have hm : n.toNat ≠ 0 := by omega
    obtain ⟨d, ds, hrev, hd0, hd10, hds10⟩ := digits_reverse_head n.toNat hm
    have hmap : ((Nat.digits 10 n.toNat).map dChar).reverse
        = (Nat.digits 10 n.toNat).reverse.map dChar := by
      simp [List.map_reverse]
    rw [hmap, hrev, List.map_cons]
    exact ⟨dChar d, _, rfl, Or.inr (by rw [toNat_dChar]; omega)⟩

theorem parseValue_number_head (f : ℕ) (c : Char) (rest : List Char)
    (hc : c = '-' ∨ (48 ≤ c.toNat ∧ c.toNat ≤ 57)) :
    parseValue (f + 1) (c :: rest) = parseNumber (c :: rest) := by
  have h45 : c.toNat = 45 ∨ (48 ≤ c.toNat ∧ c.toNat ≤ 57) := by
    rcases hc with rfl | h
    · left
      rfl
    · right
      exact h
  rw [parseValue]
  rw [skipWs_cons_not_ws (by rintro (rfl | rfl | rfl | rfl) <;> revert h45 <;> decide)]
  dsimp only
  rw [if_neg (by rintro rfl; revert h45; decide),
      if_neg (by rintro rfl; revert h45; decide),
      if_neg (by rintro rfl; revert h45; decide),
      if_neg (by rintro rfl; revert h45; decide),
      if_neg (by rintro rfl; revert h45; decide),
      if_neg (by intro h123; omega),
      if_pos hc]

theorem parseValue_renderInt (f : ℕ) (n : ℤ) (tail : List Char)
    (ht : takeDigits tail = ([], tail)) :
    parseValue (f + 1) (renderInt n ++ tail) = some (.int n, tail) := by
  obtain ⟨c, rest, hr, hc⟩ := renderInt_head n
  rw [hr, List.cons_append]
  rw [parseValue_number_head f c _ hc]
  rw [← List.cons_append, ← hr]
  exact parseNumber_renderInt n tail ht

/-! ## C7: the checkpoint round trip -/

theorem parseMembers_quote (f : ℕ) (rest : List Char) (acc : List (String × Json)) :
    parseMembers (f + 1) ('"' :: rest) acc =
      (match parseStringBody (rest.length + 1) rest with
       | some (kcs, r) =>
         (match skipWs r with
          | ':' :: r2 =>
            (match parseValue f r2 with
             | some (v2, r3) =>
               (match skipWs r3 with
                | ',' :: r4 => parseMembers f r4 (acc ++ [(⟨kcs⟩, v2)])
                | c5 :: r4 =>
                    if c5.toNat = 125 then some (.obj (acc ++ [(⟨kcs⟩, v2)]), r4) else none
                | [] => none)
             | none => none)
          | _ => none)
       | none => none) := by
  rw [parseMembers, skipWs_cons_not_ws (by decide)]
  rfl

theorem mk_toList (s : String) : (⟨s.toList⟩ : String) = s := by
  obtain ⟨l⟩ := s
  rfl

theorem parseStringBody_renderStringBody (k : String) (f : ℕ) (tail : List Char)
    (hf : k.toList.length + 1 ≤ f) :
    parseStringBody f ((k.toList.map escapeChar).flatten ++ '"' :: tail) = some (k.toList, tail) :=
  parseStringBody_escapeFlatten k.toList f tail hf

theorem skipWs_member_start (m : ℕ) (k : String) (X : List Char) :
    skipWs ('\n' :: (List.replicate m ' ' ++ (renderString k ++ X)))
      = '"' :: ((k.toList.map escapeChar).flatten ++ '"' :: X) := by
  rw [skipWs_cons_ws (Or.inr (Or.inl rfl)), skipWs_replicate_space]
  show skipWs (('"' :: ((k.toList.map escapeChar).flatten ++ ['"'])) ++ X) = _
  rw [List.cons_append, skipWs_cons_not_ws (by decide)]
  simp [List.append_assoc]

theorem parseMembers_step (f m : ℕ) (k : String) (v : Json) (d : ℕ)
    (after : List Char) (acc : List (String × Json))
    (hv : parseValue f (renderJson v d ++ after) = some (v, after)) :
    parseMembers (f + 1)
      ('\n' :: (List.replicate m ' ' ++ (renderString k ++ ':' :: ' ' :: (renderJson v d ++ after))))
      acc =
      (match skipWs after with
       | ',' :: r4 => parseMembers f r4 (acc ++ [(k, v)])
       | c5 :: r4 => if c5.toNat = 125 then some (.obj (acc ++ [(k, v)]), r4) else none
       | [] => none) := by
  rw [parseMembers_skipWs, skipWs_member_start]
  rw [parseMembers_quote]
  rw [parseStringBody_renderStringBody k _ (':' :: ' ' :: (renderJson v d ++ after)) (by
    have h := length_le_flatten_escape k.toList
    simp only [List.length_append, List.length_cons]
    omega)]
  dsimp only
  rw [skipWs_cons_not_ws (by decide)]
  show (match parseValue f (' ' :: (renderJson v d ++ after)) with
        | some (v2, r3) =>
          (match skipWs r3 with
           | ',' :: r4 => parseMembers f r4 (acc ++ [((⟨k.toList⟩ : String), v2)])
           | c5 :: r4 =>
               if c5.toNat = 125 then some (.obj (acc ++ [((⟨k.toList⟩ : String), v2)]), r4)
               else none
           | [] => none)
        | none => none) = _
  rw [mk_toList]
  rw [parseValue_skipWs f (' ' :: (renderJson v d ++ after)),
    skipWs_cons_ws (Or.inl rfl), ← parseValue_skipWs, hv]

theorem parseMembers_step_comma (f m : ℕ) (k : String) (v : Json) (d : ℕ)
    (rest2 : List Char) (acc : List (String × Json))
    (hv : parseValue f (renderJson v d ++ ',' :: rest2) = some (v, ',' :: rest2)) :
    parseMembers (f + 1)
      ('\n' :: (List.replicate m ' ' ++ (renderString k ++ ':' :: ' ' :: (renderJson v d ++ ',' :: rest2))))
      acc = parseMembers f rest2 (acc ++ [(k, v)]) := by
  rw [parseMembers_step f m k v d _ acc hv]
  rw [skipWs_cons_not_ws (by decide)]
  rfl

theorem parseMembers_step_close (f m mm : ℕ) (k : String) (v : Json) (d : ℕ)
    (tail : List Char) (acc : List (String × Json))
    (hv : parseValue f (renderJson v d ++ ('\n' :: (List.replicate mm ' ' ++ rcurly :: tail)))
      = some (v, '\n' :: (List.replicate mm ' ' ++ rcurly :: tail))) :
    parseMembers (f + 1)
      ('\n' :: (List.replicate m ' ' ++ (renderString k ++ ':' :: ' ' ::
        (renderJson v d ++ ('\n' :: (List.replicate mm ' ' ++ rcurly :: tail))))))
      acc = some (.obj (acc ++ [(k, v)]), tail) := by
  rw [parseMembers_step f m k v d _ acc hv]
  rw [skipWs_cons_ws (Or.inr (Or.inl rfl)), skipWs_replicate_space,
    skipWs_cons_not_ws (by decide)]
  rfl

theorem renderJson_str (s : String) (d : ℕ) : renderJson (.str s) d = renderString s := by
  rw [renderJson]

theorem renderJson_int (n : ℤ) (d : ℕ) : renderJson (.int n) d = renderInt n := by
  rw [renderJson]

theorem renderJson_obj_cons (kv : String × Json) (kvs : List (String × Json)) (d : ℕ) :
    renderJson (.obj (kv :: kvs)) d =
      lcurly :: '\n' :: renderMembers (kv :: kvs) (d + 1) ++
        '\n' :: List.replicate (4 * d) ' ' ++ [rcurly] := by
  rw [renderJson]

theorem renderMembers_cons2 (k : String) (v : Json) (kv : String × Json)
    (kvs : List (String × Json)) (d : ℕ) :
    renderMembers ((k, v) :: kv :: kvs) d =
      List.replicate (4 * d) ' ' ++ renderString k ++ ':' :: ' ' :: renderJson v d ++
        ',' :: '\n' :: renderMembers (kv :: kvs) d := by
  rw [renderMembers]

theorem renderMembers_single (k : String) (v : Json) (d : ℕ) :
    renderMembers [(k, v)] d =
      List.replicate (4 * d) ' ' ++ renderString k ++ ':' :: ' ' :: renderJson v d := by
  rw [renderMembers]

theorem parseValue_record (f : ℕ) (r : LateRec) (d : ℕ) (tail : List Char) :
    parseValue (f + 6) (renderJson (recToJson r) d ++ tail) = some (recToJson r, tail) := by
  show parseValue ((f + 5) + 1) _ = _
  rw [recToJson]
  rw [renderJson_obj_cons, renderMembers_cons2, renderMembers_cons2, renderMembers_cons2,
    renderMembers_single]
  simp only [List.append_assoc, List.cons_append, List.singleton_append]
  rw [parseValue]
  rw [skipWs_cons_not_ws (by decide)]
  dsimp only
  rw [if_neg (show lcurly = 'n' → False from by decide),
      if_neg (show lcurly = 't' → False from by decide),
      if_neg (show lcurly = 'f' → False from by decide),
      if_neg (show lcurly = '"' → False from by decide),
      if_neg (show lcurly = '[' → False from by decide),
      if_pos (show lcurly.toNat = 123 from by decide)]
  rw [← parseMembers_skipWs]
  rw [skipWs_member_start]
  dsimp only
  rw [if_neg (show ('"').toNat = 125 → False from by decide)]
  rw [show f + 5 = (f + 4) + 1 from rfl]
  rw [parseMembers_step_comma (f + 4) _ "name" (.str r.name) (d + 1) _ _
    (by rw [renderJson_str]; exact parseValue_renderString (f + 3) r.name _)]
  rw [show f + 4 = (f + 3) + 1 from rfl]
  rw [parseMembers_step_comma (f + 3) _ "link" (.str r.link) (d + 1) _ _
    (by rw [renderJson_str]; exact parseValue_renderString (f + 2) r.link _)]
  rw [show f + 3 = (f + 2) + 1 from rfl]
  rw [parseMembers_step_comma (f + 2) _ "due_date" (.str r.due_date) (d + 1) _ _
    (by rw [renderJson_str]; exact parseValue_renderString (f + 1) r.due_date _)]
  rw [show f + 2 = (f + 1) + 1 from rfl]
  rw [parseMembers_step_close (f + 1) _ _ "days_late" (.int r.days_late) (d + 1) _ _
    (by
      rw [renderJson_int]
      exact parseValue_renderInt f r.days_late _
        (takeDigits_cons_not_digit _ _ (by decide)))]
  rfl

theorem renderItems_cons2 (x y : Json) (xs : List Json) (d : ℕ) :
    renderItems (x :: y :: xs) d =
      List.replicate (4 * d) ' ' ++ renderJson x d ++ ',' :: '\n' :: renderItems (y :: xs) d := by
  rw [renderItems]

theorem renderItems_single (x : Json) (d : ℕ) :
    renderItems [x] d = List.replicate (4 * d) ' ' ++ renderJson x d := by
  rw [renderItems]

theorem renderJson_arr_cons (x : Json) (xs : List Json) (d : ℕ) :
    renderJson (.arr (x :: xs)) d =
      '[' :: '\n' :: renderItems (x :: xs) (d + 1) ++
        '\n' :: List.replicate (4 * d) ' ' ++ [']'] := by
  rw [renderJson]

theorem renderJson_arr_nil (d : ℕ) : renderJson (.arr []) d = ['[', ']'] := by
  rw [renderJson]

theorem parseElems_rec_comma (f m d : ℕ) (r : LateRec) (rest2 : List Char) (acc : List Json) :
    parseElems ((f + 6) + 1)
      ('\n' :: (List.replicate m ' ' ++ (renderJson (recToJson r) d ++ ',' :: rest2))) acc
      = parseElems (f + 6) rest2 (acc ++ [recToJson r]) := by
  rw [parseElems]
  rw [parseValue_skipWs (f + 6)]
  rw [skipWs_cons_ws (Or.inr (Or.inl rfl)), skipWs_replicate_space]
  rw [← parseValue_skipWs]
  rw [parseValue_record f r d (',' :: rest2)]
  dsimp only
  rw [skipWs_cons_not_ws (by decide)]
  rfl

theorem parseElems_rec_close (f m mm d : ℕ) (r : LateRec) (tail : List Char) (acc : List Json) :
    parseElems ((f + 6) + 1)
      ('\n' :: (List.replicate m ' ' ++
        (renderJson (recToJson r) d ++ ('\n' :: (List.replicate mm ' ' ++ ']' :: tail))))) acc
      = some (.arr (acc ++ [recToJson r]), tail) := by
  rw [parseElems]
  rw [parseValue_skipWs (f + 6)]
  rw [skipWs_cons_ws (Or.inr (Or.inl rfl)), skipWs_replicate_space]
  rw [← parseValue_skipWs]
  rw [parseValue_record f r d ('\n' :: (List.replicate mm ' ' ++ ']' :: tail))]
  dsimp only
  rw [skipWs_cons_ws (Or.inr (Or.inl rfl)), skipWs_replicate_space,
    skipWs_cons_not_ws (by decide)]
  rfl

theorem parseElems_records (rs : List LateRec) :
    ∀ (f mm d : ℕ) (acc : List Json) (tail : List Char), rs ≠ [] →
      parseElems ((f + rs.length) + 6)
        ('\n' :: (renderItems (rs.map recToJson) d ++
          ('\n' :: (List.replicate mm ' ' ++ ']' :: tail)))) acc
        = some (.arr (acc ++ rs.map recToJson), tail) := by
  induction rs with
  | nil => intro _ _ _ _ _ h; exact absurd rfl h
  | cons r rest ih =>
      intro f mm d acc tail _
      simp only [List.length_cons, List.map_cons]
      cases rest with
      | nil =>
          simp only [List.map_nil, List.length_nil]
          rw [renderItems_single]
          simp only [List.append_assoc]
          rw [show f + (0 + 1) + 6 = (f + 6) + 1 from rfl]
          rw [parseElems_rec_close f _ mm (d) r tail acc]
      | cons r2 rest2 =>
          simp only [List.map_cons]
          rw [renderItems_cons2]
          simp only [List.append_assoc, List.cons_append]
          rw [show f + (List.length (r2 :: rest2) + 1) + 6
              = ((f + List.length (r2 :: rest2)) + 6) + 1 from by omega]
          rw [parseElems_rec_comma (f + List.length (r2 :: rest2)) _ d r _ acc]
          have ih2 := ih f mm d (acc ++ [recToJson r]) tail (by simp)
          simp only [List.map_cons] at ih2
          rw [ih2]
          simp

theorem skipWs_items_head (r : LateRec) (xs : List Json) (d : ℕ) (X : List Char) :
    ∃ Q, skipWs ('\n' :: (renderItems (recToJson r :: xs) d ++ X)) = lcurly :: Q := by
  cases xs with
  | nil =>
      rw [renderItems_single]
      rw [skipWs_cons_ws (Or.inr (Or.inl rfl))]
      rw [List.append_assoc, skipWs_replicate_space]
      rw [recToJson, renderJson_obj_cons]
      simp only [List.cons_append, List.append_assoc]
      rw [skipWs_cons_not_ws (by decide)]
      exact ⟨_, rfl⟩
  | cons y ys =>
      rw [renderItems_cons2]
      rw [skipWs_cons_ws (Or.inr (Or.inl rfl))]
      simp only [List.append_assoc]
      rw [skipWs_replicate_space]
      rw [recToJson, renderJson_obj_cons]
      simp only [List.cons_append, List.append_assoc]
      rw [skipWs_cons_not_ws (by decide)]
      exact ⟨_, rfl⟩

theorem parseValue_recsToJson (f : ℕ) (rs : List LateRec) (d : ℕ) (tail : List Char) :
    parseValue ((f + rs.length) + 7) (renderJson (recsToJson rs) d ++ tail)
      = some (recsToJson rs, tail) := by
  cases rs with
  | nil =>
      simp only [recsToJson, List.map_nil, List.length_nil]
      rw [renderJson_arr_nil]
      rw [show (['[', ']'] : List Char) ++ tail = '[' :: ']' :: tail from rfl]
      rw [show (f + 0) + 7 = ((f + 0) + 6) + 1 from rfl]
      rw [parseValue]
      rw [skipWs_cons_not_ws (by decide)]
      dsimp only
      rw [if_neg (show ('[' : Char) = 'n' → False from by decide),
          if_neg (show ('[' : Char) = 't' → False from by decide),
          if_neg (show ('[' : Char) = 'f' → False from by decide),
          if_neg (show ('[' : Char) = '"' → False from by decide),
          if_pos rfl]
      rw [skipWs_cons_not_ws (by decide)]
      rfl
  | cons r rest =>
      simp only [recsToJson, List.map_cons, List.length_cons]
      rw [renderJson_arr_cons]
      simp only [List.append_assoc, List.cons_append, List.singleton_append,
        List.nil_append]
      rw [show f + (rest.length + 1) + 7 = ((f + (rest.length + 1)) + 6) + 1 from rfl]
      rw [parseValue]
      rw [skipWs_cons_not_ws (by decide)]
      dsimp only
      rw [if_neg (show ('[' : Char) = 'n' → False from by decide),
          if_neg (show ('[' : Char) = 't' → False from by decide),
          if_neg (show ('[' : Char) = 'f' → False from by decide),
          if_neg (show ('[' : Char) = '"' → False from by decide),
          if_pos rfl]
      obtain ⟨Q, hQ⟩ := skipWs_items_head r (rest.map recToJson) (d + 1)
        ('\n' :: (List.replicate (4 * d) ' ' ++ ']' :: tail))
      rw [← parseElems_skipWs]
      rw [hQ]
      split
      · rename_i heq
        rw [lcurly] at heq
        exact absurd (List.head_eq_of_cons_eq heq.symm) (by decide)
      · have h2 := parseElems_records (r :: rest) (f) (4 * d) (d + 1) [] tail (by simp)
        simp only [List.map_cons, List.length_cons] at h2
        rw [h2]
        simp

theorem renderItems_rec_length (rs : List LateRec) (d : ℕ) (h : rs ≠ []) :
    rs.length ≤ (renderItems (rs.map recToJson) d).length := by
  induction rs with
  | nil => exact absurd rfl h
  | cons r rest ih =>
      have hrec : 1 ≤ (renderJson (recToJson r) d).length := by
        rw [recToJson, renderJson_obj_cons]
        simp
      cases rest with
      | nil =>
          simp only [List.map_cons, List.map_nil]
          rw [renderItems_single]
          simp only [List.length_append, List.length_cons, List.length_nil,
            List.length_replicate]
          omega
      | cons r2 rest2 =>
          simp only [List.map_cons]
          rw [renderItems_cons2]
          have ih2 := ih (by simp)
          simp only [List.map_cons, List.length_cons] at ih2 ⊢
          simp only [List.length_append, List.length_cons, List.length_replicate]
          omega

theorem parseJson_dumps_recs (rs : List LateRec) :
    parseJson (dumps (recsToJson rs)) = some (recsToJson rs) := by
  cases rs with
  | nil => rfl
  | cons r rest =>
      show (match parseValue (2 * (renderJson (recsToJson (r :: rest)) 0).length + 2)
          (renderJson (recsToJson (r :: rest)) 0) with
        | some (v, rr) => if skipWs rr = [] then some v else none
        | none => none) = some (recsToJson (r :: rest))
      have hlen := renderItems_rec_length (r :: rest) 1 (by simp)
      have hL4 : (renderJson (recsToJson (r :: rest)) 0).length
          = (renderItems ((r :: rest).map recToJson) 1).length + 4 := by
        simp only [recsToJson]
        rw [show ((r :: rest).map recToJson) = recToJson r :: rest.map recToJson from by
          simp]
        rw [renderJson_arr_cons]
        simp [List.length_append]
      have hbound : (r :: rest).length + 7
          ≤ 2 * (renderJson (recsToJson (r :: rest)) 0).length + 2 := by
        simp only [List.length_cons] at hlen ⊢
        omega
      obtain ⟨g, hg⟩ : ∃ g, 2 * (renderJson (recsToJson (r :: rest)) 0).length + 2
          = (g + (r :: rest).length) + 7 :=
        ⟨2 * (renderJson (recsToJson (r :: rest)) 0).length + 2 - (r :: rest).length - 7,
          by omega⟩
      rw [hg]
      have h := parseValue_recsToJson g (r :: rest) 0 []
      rw [List.append_nil] at h
      rw [h]
      rfl

theorem jsonToRec_recToJson (r : LateRec) : jsonToRec (recToJson r) = some r := by
  obtain ⟨n, l, dd, k⟩ := r
  rfl

theorem jsonToRecs_recsToJson (rs : List LateRec) : jsonToRecs (recsToJson rs) = some rs := by
  induction rs with
  | nil => rfl
  | cons r rest ih =>
      simp only [jsonToRecs, recsToJson, List.map_cons, List.mapM_cons] at ih ⊢
      rw [jsonToRec_recToJson]
      have ih2 : List.mapM.loop jsonToRec (List.map recToJson rest) [] = some rest := ih
      simp [ih2]

/-- C7: for every collection of late-filing records, saving it to a checkpoint
file with `save_to_file` and reloading that file with `load_from_file` yields
exactly the saved collection with nothing logged (the reload parses the
`json.dump(..., indent=4)` text back to the same value), and the record dicts
decode to the original records — an exact serialize/deserialize round trip. -/
theorem c7_checkpoint_round_trip (rs : List LateRec) (fn : String) (fs : FS) :
    load_from_file fn (save_to_file (recsToJson rs) fn fs) = (recsToJson rs, []) ∧
    jsonToRecs (recsToJson rs) = some rs := by
  constructor
  · unfold load_from_file save_to_file
    rw [if_pos rfl]
    dsimp only
    rw [parseJson_dumps_recs]
  · exact jsonToRecs_recsToJson rs

/-! ## The `__main__` orchestration (late-accounts.py lines 332-373), for C5 and C8 -/

/-- Python `len(x)` on a parsed JSON value: lists, strings and dicts have a
length; `None`, booleans and numbers raise `TypeError`. -/
def pyLen : Json → Except PyErr ℕ
  | .arr xs => .ok xs.length
  | .str s => .ok s.length
  | .obj fields => .ok fields.length
  | _ => .error .typeError

/-- Python iteration `for x in v` over a parsed JSON value: lists yield their
items, strings their characters, dicts their keys; other values raise
`TypeError`. -/
def iterJson : Json → Except PyErr (List Json)
  | .arr xs => .ok xs
  | .str s => .ok (s.toList.map fun c => .str ⟨[c]⟩)
  | .obj fields => .ok (fields.map fun kv => .str kv.1)
  | _ => .error .typeError

/-- Python `d.get(key, default)`: dict lookup with a default; `.get` on a
non-dict raises `AttributeError`. -/
def dictGet : Json → String → Json → Except PyErr Json
  | .obj fields, k, dflt => .ok ((fields.lookup k).getD dflt)
  | _, _, _ => .error .attributeError

/-- `get_active_plcs` (late-accounts.py lines 75-90), abstracted over the one
registry search response: on a non-200 status it logs
`"Error: {status} - {text}"` and falls off the function (a bare `return`,
Python `None`, modelled as `Json.null`); on 200 it parses the body
(`response.json()`, `json.JSONDecodeError` on invalid JSON), extends
`companies = []` with `data.get('items', [])`, logs the download count and
returns the list. -/
def get_active_plcs (resp : Response) : Except PyErr (Json × List String) :=
  if resp.status ≠ 200 then
    .ok (.null, ["Error: " ++ toString resp.status ++ " - " ++ resp.text])
  else
    match parseJson resp.text with
    | none => .error .jsonDecodeError
    | some data =>
        match dictGet data "items" (.arr []) with
        | .error e => .error e
        | .ok items =>
            match iterJson items with
            | .error e => .error e
            | .ok xs => .ok (.arr xs, ["Downloaded " ++ toString xs.length ++ "..."])

/-- One `plc` entry of the enumerated list as the `get_late_plcs` loop reads
it: the `plc["company_name"]` and `plc["company_number"]` subscriptions, in
the order line 187 evaluates them (`KeyError` / `TypeError` as in Python).
Entries whose name or number is not a JSON string are outside the model's
data domain (the registry search returns strings). -/
def jsonToCompanyRef (j : Json) : Except PyErr CompanyRef := do
  let name ← j.getItem "company_name"
  let num ← j.getItem "company_number"
  match num, name with
  | .str sn, .str sm => pure ⟨sn, sm⟩
  | _, _ => .error .typeError

/-- `get_late_plcs` as `__main__` calls it, on the parsed JSON value
`active_plcs`: iterate the Python value and process each entry. -/
def get_late_plcs_json (fetch : String → Except PyErr Json) (today : Date)
    (plcs : Json) : Except PyErr (List LateRec × List LateRec × List ClassLog) := do
  let items ← iterJson plcs
  let refs ← items.mapM jsonToCompanyRef
  get_late_plcs fetch today refs

/-- `create_html` (late-accounts.py lines 236-328) as the pipeline sees it:
flatten the issuer lists and render the Jinja template — a pure computation
over the record rows whose only failing step, for any value reaching it, is
`len(late_plcs)` — then write the page to the export file.  The page text is
outside this model (the issuer-highlighting semantics are `isHighlighted`);
the write itself is recorded by `mainRun.htmlFiles`. -/
def create_html (late_plcs : Json) (_issuers : List (List String)) :
    Except PyErr Unit :=
  match pyLen late_plcs with
  | .ok _ => .ok ()
  | .error e => .error e

/-- late-accounts.py line 64. -/
def PLC_LIST_FILE : String := "active_plcs.json"

/-- late-accounts.py line 66. -/
def LATE_ACCOUNTS_LIST_FILE : String := "late_plcs.json"

/-- late-accounts.py line 69. -/
def LATE_CONFIRMATIONS_LIST_FILE : String := "late_confirmations_plcs.json"

/-- late-accounts.py line 67. -/
def ACCOUNTS_HTML_EXPORT_FILE : String := "late_plc_table.html"

/-- late-accounts.py line 70. -/
def CONFIRMATIONS_HTML_EXPORT_FILE : String := "late_confirmations_plcs_table.html"

/-- Outcome of one `__main__` run: the checkpoint file system after the run,
the HTML export files written (in order), the enumerator log lines, and
whether the process finished or died with an uncaught Python error. -/
structure RunResult where
  fs : FS
  htmlFiles : List String
  logs : List String
  outcome : Except PyErr Unit

/-- The `__main__` block (late-accounts.py lines 332-373), abstracted over the
two configuration flags, the registry search response, the per-company
profile fetch, the run date, the downloaded issuer lists and the initial file
system.  An uncaught Python error aborts the run where it occurs; the
`os.system` uploads at the end are outside the model. -/
def mainRun (gen analyse : Bool) (searchResp : Response)
    (fetch : String → Except PyErr Json) (today : Date)
    (issuers : List (List String)) (fs0 : FS) : RunResult :=
  let step1 : Except PyErr (Json × FS × List String) :=
    if gen then
      match get_active_plcs searchResp with
      | .ok (v, logs) => .ok (v, save_to_file v PLC_LIST_FILE fs0, logs)
      | .error e => .error e
    else .ok ((load_from_file PLC_LIST_FILE fs0).1, fs0, [])
  match step1 with
  | .error e => ⟨fs0, [], [], .error e⟩
  | .ok (active, fs1, logs1) =>
    let step2 : Except PyErr (Json × Json × FS) :=
      if analyse then
        match pyLen active with
        | .error e => .error e
        | .ok _ =>
          match get_late_plcs_json fetch today active with
          | .error e => .error e
          | .ok (la, lc, _) =>
              .ok (recsToJson la, recsToJson lc,
                save_to_file (recsToJson lc) LATE_CONFIRMATIONS_LIST_FILE
                  (save_to_file (recsToJson la) LATE_ACCOUNTS_LIST_FILE fs1))
      else
        .ok ((load_from_file LATE_ACCOUNTS_LIST_FILE fs1).1,
          (load_from_file LATE_CONFIRMATIONS_LIST_FILE fs1).1, fs1)
    match step2 with
    | .error e => ⟨fs1, [], logs1, .error e⟩
    | .ok (laJ, lcJ, fs2) =>
      match pyLen laJ with
      | .error e => ⟨fs2, [], logs1, .error e⟩
      | .ok _ =>
        match pyLen lcJ with
        | .error e => ⟨fs2, [], logs1, .error e⟩
        | .ok _ =>
          match pyLen active with
          | .error e => ⟨fs2, [], logs1, .error e⟩
          | .ok _ =>
            match create_html laJ issuers with
            | .error e => ⟨fs2, [], logs1, .error e⟩
            | .ok _ =>
              match create_html lcJ issuers with
              | .error e => ⟨fs2, [ACCOUNTS_HTML_EXPORT_FILE], logs1, .error e⟩
              | .ok _ =>
                ⟨fs2, [ACCOUNTS_HTML_EXPORT_FILE, CONFIRMATIONS_HTML_EXPORT_FILE],
                  logs1, .ok ()⟩

/-- C8: for every filename and file system, a missing checkpoint file makes
`load_from_file` log `FileNotFoundError` and return the empty Python list,
and a file holding invalid JSON makes it log `JSONDecodeError` and return the
empty Python list — no error escapes; and a full (non-generating, analysing)
run whose PLC checkpoint is missing or invalid proceeds to completion,
writing both HTML exports and exiting normally. -/
theorem c8_missing_or_invalid_checkpoint_recovers (fn : String) (fs : FS) :
    (fs fn = none → load_from_file fn fs = (.arr [], [.fileNotFound fn])) ∧
    (∀ text, fs fn = some text → parseJson text = none →
      load_from_file fn fs = (.arr [], [.invalidJson fn])) ∧
    (∀ (resp : Response) (fetch : String → Except PyErr Json) (today : Date)
        (issuers : List (List String)),
      (fs PLC_LIST_FILE = none ∨
        (∃ t, fs PLC_LIST_FILE = some t ∧ parseJson t = none)) →
      (mainRun false true resp fetch today issuers fs).outcome = .ok () ∧
      (mainRun false true resp fetch today issuers fs).htmlFiles
        = [ACCOUNTS_HTML_EXPORT_FILE, CONFIRMATIONS_HTML_EXPORT_FILE]) := by
  refine ⟨?_, ?_, ?_⟩
  · intro h
    unfold load_from_file
    rw [h]
  · intro text ht hbad
    unfold load_from_file
    rw [ht]
    dsimp only
    rw [hbad]
  · intro resp fetch today issuers hbad
    have hload1 : (load_from_file PLC_LIST_FILE fs).1 = Json.arr [] := by
      rcases hbad with h | ⟨t, ht, hbadt⟩
      · unfold load_from_file
        rw [h]
      · unfold load_from_file
        rw [ht]
        dsimp only
        rw [hbadt]
    constructor
    · show (mainRun false true resp fetch today issuers fs).outcome = .ok ()
      unfold mainRun
      rw [hload1]
      rfl
    · show (mainRun false true resp fetch today issuers fs).htmlFiles
        = [ACCOUNTS_HTML_EXPORT_FILE, CONFIRMATIONS_HTML_EXPORT_FILE]
      unfold mainRun
      rw [hload1]
      rfl

theorem c8_missing_or_invalid_checkpoint_recovers_witness :
    ((fun _ : String => (none : Option String)) "x.json" = none ∧
      load_from_file "x.json" (fun _ => none) = (.arr [], [.fileNotFound "x.json"])) ∧
    ((fun _ : String => some "not json") "x.json" = some "not json" ∧
      parseJson "not json" = none ∧
      load_from_file "x.json" (fun _ => some "not json")
        = (.arr [], [.invalidJson "x.json"])) ∧
    (mainRun false true ⟨200, "[]"⟩ (fun _ => .ok .null) ⟨2024, 1, 10⟩ []
        (fun _ => none)).outcome = .ok () := by
  refine ⟨⟨rfl, ?_⟩, ⟨rfl, rfl, ?_⟩, ?_⟩
  · exact (c8_missing_or_invalid_checkpoint_recovers "x.json" (fun _ => none)).1 rfl
  · exact (c8_missing_or_invalid_checkpoint_recovers "x.json"
      (fun _ => some "not json")).2.1 "not json" rfl rfl
  · exact ((c8_missing_or_invalid_checkpoint_recovers "x.json" (fun _ => none)).2.2
      ⟨200, "[]"⟩ (fun _ => .ok .null) ⟨2024, 1, 10⟩ [] (Or.inl rfl)).1

theorem pyLen_ok_or_typeError (j : Json) :
    (∃ n, pyLen j = .ok n) ∨ pyLen j = .error .typeError := by
  cases j
  · exact Or.inr rfl
  · exact Or.inr rfl
  · exact Or.inr rfl
  · exact Or.inl ⟨_, rfl⟩
  · exact Or.inl ⟨_, rfl⟩
  · exact Or.inl ⟨_, rfl⟩

/-- C5 counterexample: with `GENERATE_PLC_LIST` set and the registry search
answering 404, the enumerator logs the status and body and returns `None` —
but the pipeline does not stop there treating it as "no data": it saves the
`None` as if it were a population, overwriting the PLC checkpoint with the
JSON text `null`, and then dies with an uncaught `TypeError` at
`len(active_plcs)`; no HTML is produced. -/
theorem c5_counterexample_enumerator_error_not_contained :
    (mainRun true true ⟨404, "Not Found"⟩ (fun _ => .ok .null) ⟨2024, 1, 10⟩ []
        (fun _ => none)).logs = ["Error: 404 - Not Found"] ∧
    (mainRun true true ⟨404, "Not Found"⟩ (fun _ => .ok .null) ⟨2024, 1, 10⟩ []
        (fun _ => none)).fs PLC_LIST_FILE = some "null" ∧
    (mainRun true true ⟨404, "Not Found"⟩ (fun _ => .ok .null) ⟨2024, 1, 10⟩ []
        (fun _ => none)).outcome = .error .typeError ∧
    (mainRun true true ⟨404, "Not Found"⟩ (fun _ => .ok .null) ⟨2024, 1, 10⟩ []
        (fun _ => none)).htmlFiles = [] := by
  refine ⟨rfl, ?_, rfl, rfl⟩
  rfl

/-- C5 (amended): for every non-success status from the registry search, the
Company Enumerator logs `"Error: {status} - {body}"` and returns Python
`None`; a generating run then proceeds past it regardless: it saves the
`None`, overwriting the PLC checkpoint file with the JSON text `null`, and
aborts with an uncaught `TypeError` at the first `len(active_plcs)` — under
both settings of `ANALYSE_PLC_LIST` — writing no HTML export.  The failure is
thus neither treated as a valid population nor contained at the enumerator:
the run crashes later and corrupts the checkpoint on the way. -/
theorem c5_amended_enumerator_error (resp : Response) (h : ¬resp.status = 200)
    (analyse : Bool) (fetch : String → Except PyErr Json) (today : Date)
    (issuers : List (List String)) (fs0 : FS) :
    get_active_plcs resp =
      .ok (.null, ["Error: " ++ toString resp.status ++ " - " ++ resp.text]) ∧
    mainRun true analyse resp fetch today issuers fs0 =
      ⟨save_to_file .null PLC_LIST_FILE fs0, [],
        ["Error: " ++ toString resp.status ++ " - " ++ resp.text],
        .error .typeError⟩ ∧
    save_to_file .null PLC_LIST_FILE fs0 PLC_LIST_FILE = some "null" := by
  have hga : get_active_plcs resp =
      .ok (.null, ["Error: " ++ toString resp.status ++ " - " ++ resp.text]) := by
    unfold get_active_plcs
    rw [if_pos h]
  refine ⟨hga, ?_, rfl⟩
  unfold mainRun
  rw [hga]
  cases analyse with
  | true => rfl
  | false =>
      simp only [eq_self_iff_true, if_true, Bool.false_eq_true, if_false]
      rcases pyLen_ok_or_typeError
        ((load_from_file LATE_ACCOUNTS_LIST_FILE
          (save_to_file .null PLC_LIST_FILE fs0)).1) with ⟨n1, h1⟩ | h1
      · rw [h1]
        rcases pyLen_ok_or_typeError
          ((load_from_file LATE_CONFIRMATIONS_LIST_FILE
            (save_to_file .null PLC_LIST_FILE fs0)).1) with ⟨n2, h2⟩ | h2
        · rw [h2]
          rfl
        · rw [h2]
      · rw [h1]

theorem c5_amended_enumerator_error_witness :
    (¬(Response.mk 404 "Not Found").status = 200) ∧
    get_active_plcs ⟨404, "Not Found"⟩ = .ok (.null, ["Error: 404 - Not Found"]) ∧
    (mainRun true false ⟨404, "Not Found"⟩ (fun _ => .ok .null) ⟨2024, 1, 10⟩ []
      (fun _ => none)).outcome = .error .typeError ∧
    save_to_file .null PLC_LIST_FILE (fun _ => none) PLC_LIST_FILE = some "null" := by
  have happ := c5_amended_enumerator_error ⟨404, "Not Found"⟩ (by decide) false
    (fun _ => .ok .null) ⟨2024, 1, 10⟩ [] (fun _ => none)
  exact ⟨by decide, happ.1, by rw [happ.2.1], happ.2.2⟩

end LateAccounts
